import Mathlib

/-!
Verification of the URL canonicalization / extraction / link-repair engine of
`generate_priority_pass_map_v2.py`.

Python strings are modelled as `List Char`; the parts of `urllib.parse`
(CPython 3.11) that the program uses — `urlparse`, `urlunparse` — are embedded
below, following the stdlib source line by line.  `urlparse` can raise
`ValueError`; fallible functions therefore return `Except PyErr _`.  Two
deliberate approximations are documented at `urlsplitE`: bracketed (IPv6)
authorities are uniformly rejected, and the NFKC check of `_checknetloc`
(which can reject some non-ASCII bracket-free authorities, e.g. `"//℀x"`)
is not modelled, so the model is error-exact only on ASCII inputs; every
theorem below asserting the absence of a parse error on bracket-free inputs
therefore carries a `pyIsAscii` hypothesis.
Case mapping (`str.lower` / `str.upper`) is modelled by ASCII case mapping,
which agrees with Python on every comparison performed by this program.
-/

/-- Python `str` as a list of characters. -/
abbrev Str := List Char

/-- String literal helper: Lean `String` to the `Str` model. -/
def toL (s : String) : Str := s.toList

/-- Python `s1.startswith(s2)`: is the first argument a leading piece of the second. -/
def strStarts : Str → Str → Bool
  | [], _ => true
  | _ :: _, [] => false
  | a :: as, b :: bs => a == b && strStarts as bs

/-- Python `needle in hay` on strings (substring containment). -/
def containsSub (needle : Str) : Str → Bool
  | [] => strStarts needle []
  | c :: rest => strStarts needle (c :: rest) || containsSub needle rest

/-- Python `s.split(sep)` for a one-character separator (keeps empty pieces). -/
def splitOnChar (sep : Char) : Str → List Str
  | [] => [[]]
  | c :: rest =>
    let r := splitOnChar sep rest
    if c = sep then [] :: r
    else
      match r with
      | h :: t => (c :: h) :: t
      | [] => [[c]]

/-- Python `sep.join(parts)` for a one-character separator. -/
def joinWith (sep : Char) : List Str → Str
  | [] => []
  | [s] => s
  | s :: rest => s ++ sep :: joinWith sep rest

/-- Python `s.strip(c)` for a one-character deletion set. -/
def stripChar (c : Char) (s : Str) : Str :=
  ((s.dropWhile (· = c)).reverse.dropWhile (· = c)).reverse

/-- ASCII lower-casing of one character (model of `str.lower` per character). -/
def pyToLower (c : Char) : Char := c.toLower

/-- ASCII upper-casing of one character (model of `str.upper` per character). -/
def pyToUpper (c : Char) : Char := c.toUpper

/-- Python `s.lower()` (ASCII model). -/
def lowerStr (s : Str) : Str := s.map pyToLower

/-- Python `s.upper()` (ASCII model). -/
def upperStr (s : Str) : Str := s.map pyToUpper

/-- Python `str.isspace` for one character: the Unicode whitespace set
(`\t \n \v \f \r \x1c-\x1f`, space, NEL, NBSP and the Unicode space
separators). -/
def pyIsSpace (c : Char) : Bool :=
  [9, 10, 11, 12, 13, 28, 29, 30, 31, 32, 133, 160, 0x1680,
   0x2000, 0x2001, 0x2002, 0x2003, 0x2004, 0x2005, 0x2006, 0x2007,
   0x2008, 0x2009, 0x200a, 0x2028, 0x2029, 0x202f, 0x205f, 0x3000].contains c.toNat

/-- Python `s.strip()` (strip whitespace from both ends). -/
def pstrip (s : Str) : Str :=
  ((s.dropWhile pyIsSpace).reverse.dropWhile pyIsSpace).reverse

/-! ## Model of `urllib.parse` (CPython 3.11) -/

/-- The single exception kind the modelled library code can raise. -/
inductive PyErr where
  | valueError
deriving DecidableEq

/-- `_WHATWG_C0_CONTROL_OR_SPACE` membership: C0 controls and the space. -/
def c0ControlOrSpace (c : Char) : Bool := c.toNat ≤ 32

/-- `_UNSAFE_URL_BYTES_TO_REMOVE` membership: tab, CR, LF. -/
def unsafeUrlByte (c : Char) : Bool := c == '\t' || c == '\r' || c == '\n'

/-- `str.isascii()`: every character has a code point below 128.  On an
authority satisfying this predicate CPython's `_checknetloc` returns without
reaching its NFKC normalization check, so the parser model below is
error-exact on ASCII inputs. -/
def pyIsAscii (s : Str) : Bool := s.all (fun c => c.toNat < 128)

/-- The cleanup `urlsplit` performs before parsing: lstrip C0 controls and
spaces, then remove every tab/CR/LF. -/
def cleanUrl (s : Str) : Str :=
  (s.dropWhile c0ControlOrSpace).filter (fun c => !unsafeUrlByte c)

/-- `scheme_chars`: ASCII letters, digits, `+`, `-`, `.`. -/
def schemeChar (c : Char) : Bool :=
  c.isAlpha || c.isDigit || c == '+' || c == '-' || c == '.'

/-- Scan for `scheme ':'`: succeeds when a `':'` is reached with only
scheme characters before it; the accumulator is kept reversed. -/
def splitSchemeAux : Str → Str → Option (Str × Str)
  | _, [] => none
  | acc, c :: rest =>
    if c = ':' then some (acc.reverse, rest)
    else if schemeChar c then splitSchemeAux (c :: acc) rest
    else none

/-- The scheme-splitting step of `urlsplit`: `i = url.find(':')`, guarded by
`i > 0 and url[0].isascii() and url[0].isalpha()` and a scheme-character check
of `url[:i]`; on success the scheme is lower-cased and removed. -/
def splitScheme (s : Str) : Str × Str :=
  match s with
  | [] => ([], [])
  | c :: rest =>
    if c.isAlpha then
      match splitSchemeAux [] (c :: rest) with
      | some (sch, r) => (lowerStr sch, r)
      | none => ([], c :: rest)
    else ([], c :: rest)

/-- A netloc delimiter: `/`, `?` or `#` (see `_splitnetloc`). -/
def netlocDelim (c : Char) : Bool := c == '/' || c == '?' || c == '#'

/-- Python `url.split(sep, 1)` when `sep` occurs; `none` otherwise. -/
def splitOnFirst (sep : Char) : Str → Option (Str × Str)
  | [] => none
  | c :: rest =>
    if c = sep then some ([], rest)
    else (splitOnFirst sep rest).map (fun p => (c :: p.1, p.2))

/-- Python `url.split(sep, 1)` as a total pair: the part before the first
`sep` and the part after it (`(s, "")` when `sep` does not occur, matching the
`if sep in url` guard around each `split` in `urlsplit`). -/
def cutFirst (sep : Char) (s : Str) : Str × Str :=
  match splitOnFirst sep s with
  | some p => p
  | none => (s, [])

/-- The last `/`-free piece of a path (everything after the final slash). -/
def lastSegment (p : Str) : Str := (p.reverse.takeWhile (fun c => c ≠ '/')).reverse

/-- `_splitparams`: split `;params` off the last path segment (off the whole
path when it has no slash). -/
def splitParamsPath (p : Str) : Str × Str :=
  if '/' ∈ p then
    match splitOnFirst ';' (lastSegment p) with
    | some (a, b) => (p.take (p.length - (lastSegment p).length) ++ a, b)
    | none => (p, [])
  else
    match splitOnFirst ';' p with
    | some (a, b) => (a, b)
    | none => (p, [])

/-- `uses_params` (CPython 3.11). -/
def usesParams : List Str :=
  [[], toL "ftp", toL "hdl", toL "prospero", toL "http", toL "imap",
   toL "https", toL "shttp", toL "rtsp", toL "rtsps", toL "rtspu",
   toL "sip", toL "sips", toL "mms", toL "sftp", toL "tel"]

/-- `uses_netloc` (CPython 3.11). -/
def usesNetloc : List Str :=
  [[], toL "ftp", toL "http", toL "gopher", toL "nntp", toL "telnet",
   toL "imap", toL "wais", toL "file", toL "mms", toL "https", toL "shttp",
   toL "snews", toL "prospero", toL "rtsp", toL "rtsps", toL "rtspu",
   toL "rsync", toL "svn", toL "svn+ssh", toL "sftp", toL "nfs",
   toL "git", toL "git+ssh", toL "ws", toL "wss"]

/-- Result of `urlsplit`. -/
structure SplitResult where
  scheme : Str
  netloc : Str
  path : Str
  query : Str
  fragment : Str
deriving DecidableEq

/-- Result of `urlparse`. -/
structure ParseResult where
  scheme : Str
  netloc : Str
  path : Str
  params : Str
  query : Str
  fragment : Str
deriving DecidableEq

/-- `urllib.parse.urlsplit` (CPython 3.11), with `allow_fragments=True`.

Exception model: CPython raises `ValueError` when the authority has
mismatched square brackets, and otherwise validates a bracketed authority
as an IPv6/IPvFuture address (raising on anything else); this model raises
on every authority containing `[` or `]`, i.e. it is exact except that it
also rejects well-formed bracketed IP literals, which cannot occur in this
program's domain.  The NFKC-normalization check `_checknetloc` is not
modelled: CPython raises `ValueError` on certain non-ASCII bracket-free
authorities (e.g. `"//℀x"`, whose NFKC normalization contains `/`), while
this model parses them; `_checknetloc` returns immediately when the
authority is empty or ASCII, so the model is error-exact on ASCII inputs,
and every theorem below asserting that a bracket-free input parses without
error is restricted to `pyIsAscii` inputs. -/
def urlsplitE (url : Str) : Except PyErr SplitResult :=
  let u0 := cleanUrl url
  let sp := splitScheme u0
  let scheme := sp.1
  let u1 := sp.2
  if strStarts (toL "//") u1 then
    let rest := u1.drop 2
    let netloc := rest.takeWhile (fun c => !netlocDelim c)
    let u2 := rest.dropWhile (fun c => !netlocDelim c)
    if '[' ∈ netloc ∨ ']' ∈ netloc then .error .valueError
    else
      let fr := cutFirst '#' u2
      let qu := cutFirst '?' fr.1
      .ok ⟨scheme, netloc, qu.1, qu.2, fr.2⟩
  else
    let fr := cutFirst '#' u1
    let qu := cutFirst '?' fr.1
    .ok ⟨scheme, [], qu.1, qu.2, fr.2⟩

/-- `urllib.parse.urlparse` (CPython 3.11). -/
def urlparseE (url : Str) : Except PyErr ParseResult := do
  let r ← urlsplitE url
  if r.scheme ∈ usesParams ∧ ';' ∈ r.path then
    let pp := splitParamsPath r.path
    .ok ⟨r.scheme, r.netloc, pp.1, pp.2, r.query, r.fragment⟩
  else
    .ok ⟨r.scheme, r.netloc, r.path, [], r.query, r.fragment⟩

/-- `urllib.parse.urlunsplit` (CPython 3.11). -/
def urlunsplitStr (scheme netloc path query fragment : Str) : Str :=
  let url :=
    if netloc ≠ [] ∨ (scheme ≠ [] ∧ scheme ∈ usesNetloc ∧ ¬ strStarts (toL "//") path) then
      let url' := if path ≠ [] ∧ ¬ strStarts (toL "/") path then '/' :: path else path
      toL "//" ++ netloc ++ url'
    else path
  let url := if scheme ≠ [] then scheme ++ ':' :: url else url
  let url := if query ≠ [] then url ++ '?' :: query else url
  if fragment ≠ [] then url ++ '#' :: fragment else url

/-- `urllib.parse.urlunparse` (CPython 3.11). -/
def urlunparseStr (scheme netloc path params query fragment : Str) : Str :=
  urlunsplitStr scheme netloc (if params ≠ [] then path ++ ';' :: params else path)
    query fragment

/-! ## The program's URL functions (`generate_priority_pass_map_v2.py`) -/

/-- `MY_PP_LANG_PREFIX = "/en-GB"`. -/
def MY_PP_LANG_PREFIX : Str := toL "/en-GB"

/-- The canonical host `my.prioritypass.com`. -/
def MY_PP_HOST : Str := toL "my.prioritypass.com"

/-- Line 57-58: `if not path.startswith("/"): path = "/" + path`. -/
def ensureLeadingSlash (p : Str) : Str :=
  if strStarts (toL "/") p then p else '/' :: p

/-- Lines 60-64: a path beginning with the bare `/lounges/` prefix gains the
language prefix; a path already carrying `/en-GB/lounges/` is left unchanged
(the source's elif-pass), as is everything else. -/
def normalizeLoungesPrefix (p : Str) : Str :=
  if strStarts (toL "/lounges/") p then MY_PP_LANG_PREFIX ++ p else p

/-- `to_my_prioritypass_url` (lines 47-66): convert a Priority Pass URL/path
into `my.prioritypass.com/en-GB` form. -/
def to_my_prioritypass_url (url_or_path : Str) : Except PyErr Str :=
  let raw := pstrip url_or_path
  if raw = [] then .ok raw
  else do
    let parsed ← urlparseE raw
    let path := if parsed.netloc ≠ [] then parsed.path else raw
    let path := ensureLeadingSlash path
    let path := normalizeLoungesPrefix path
    .ok (urlunparseStr (toL "https") MY_PP_HOST path [] [] [])

/-- The non-empty `/`-separated pieces of a path:
`[p for p in parsed.path.strip("/").split("/") if p]`. -/
def pathSegments (path : Str) : List Str :=
  (splitOnChar '/' (stripChar '/' path)).filter (fun p => p ≠ [])

/-- `is_lounge_detail_url` (lines 69-82): true only for lounge detail pages
`/en-GB/lounges/<country>/<airport>/<lounge-slug>`. -/
def is_lounge_detail_url (url : Str) : Except PyErr Bool :=
  if url = [] then .ok false
  else do
    let parsed ← urlparseE url
    let parts := pathSegments parsed.path
    if 5 ≤ parts.length ∧ lowerStr (parts.headD []) = toL "en-gb"
        ∧ parts.getD 1 [] = toL "lounges" then
      .ok true
    else if 4 ≤ parts.length ∧ parts.headD [] = toL "lounges" then
      .ok true
    else
      .ok false

/-- `parsed.scheme or "https"`. -/
def schemeOrHttps (s : Str) : Str := if s = [] then toL "https" else s

/-- `parsed.netloc or "my.prioritypass.com"`. -/
def netlocOrMyPP (s : Str) : Str := if s = [] then MY_PP_HOST else s

/-- `repair_duplicated_airport_segment` (lines 107-129): repair the malformed
pattern `/lounges/<country>/<wrong-airport>/<correct-airport>/<detail-slug>`
to `/lounges/<country>/<correct-airport>/<detail-slug>`. -/
def repair_duplicated_airport_segment (url : Str) : Except PyErr Str := do
  let parsed ← urlparseE url
  let raw_parts := pathSegments parsed.path
  if 6 ≤ raw_parts.length ∧ lowerStr (raw_parts.headD []) = toL "en-gb"
      ∧ raw_parts.getD 1 [] = toL "lounges" then
    -- en-GB/lounges/country/wrong/correct/detail...
    let fixed_parts := raw_parts.take 3 ++ raw_parts.drop 4
    let fixed_path := '/' :: joinWith '/' fixed_parts
    .ok (urlunparseStr (schemeOrHttps parsed.scheme) (netlocOrMyPP parsed.netloc)
      fixed_path [] [] [])
  else if 5 ≤ raw_parts.length ∧ raw_parts.headD [] = toL "lounges" then
    -- lounges/country/wrong/correct/detail...
    let fixed_parts := raw_parts.take 2 ++ raw_parts.drop 3
    let fixed_path := '/' :: joinWith '/' fixed_parts
    .ok (urlunparseStr (schemeOrHttps parsed.scheme) (netlocOrMyPP parsed.netloc)
      fixed_path [] [] [])
  else
    .ok url

/-- The outcome of the live GET issued by `check_url_ok`, treated as an oracle
input: the final URL after redirects, the HTTP status code, and the body. -/
structure FetchResult where
  finalUrl : Str
  statusCode : Nat
  text : Str

/-- `check_url_ok` (lines 132-144): check whether the URL opens to a non-404
page and return the resolved URL.  The network response is the given
`fetch` oracle. -/
def check_url_ok (fetch : FetchResult) (url : Str) : Except PyErr (Bool × Str) := do
  let d0 ← is_lounge_detail_url url
  if !d0 then .ok (false, url)
  else do
    let d1 ← is_lounge_detail_url fetch.finalUrl
    if !d1 then .ok (false, fetch.finalUrl)
    else
      let html_head := lowerStr (fetch.text.take 2500)
      let looks_not_found := containsSub (toL "page not found") html_head
        || (containsSub (toL "404") html_head && !containsSub (toL "lounge") html_head)
      .ok (decide (fetch.statusCode < 400) && !looks_not_found, fetch.finalUrl)

/-- `try_recover_detail_url_from_redirect` (lines 147-179): recover a lounge
detail URL when the request landed on a country/airport page. -/
def try_recover_detail_url_from_redirect (original_url redirected_url : Str) :
    Except PyErr (Option Str) := do
  let op ← urlparseE original_url
  let rp ← urlparseE redirected_url
  let o_parts := pathSegments op.path
  let r_parts := pathSegments rp.path
  if o_parts.length < 5 then .ok none
  else
    let detail_slug := o_parts.getD (o_parts.length - 1) []
    let original_airport := o_parts.getD (o_parts.length - 2) []
    -- redirected airport page (preferred)
    let firstTry ←
      if 4 ≤ r_parts.length ∧ lowerStr (r_parts.headD []) = toL "en-gb"
          ∧ r_parts.getD 1 [] = toL "lounges" then do
        let country_slug := r_parts.getD 2 []
        let airport_slug := r_parts.getD 3 []
        let rebuilt ← to_my_prioritypass_url
          (toL "/en-GB/lounges/" ++ country_slug ++ '/' :: airport_slug ++ '/' :: detail_slug)
        let d ← is_lounge_detail_url rebuilt
        pure (if d then some rebuilt else none)
      else pure none
    match firstTry with
    | some u => .ok (some u)
    | none =>
      -- redirected country page -> reuse original airport slug
      if r_parts.length = 3 ∧ lowerStr (r_parts.headD []) = toL "en-gb"
          ∧ r_parts.getD 1 [] = toL "lounges" then do
        let country_slug := r_parts.getD 2 []
        let rebuilt ← to_my_prioritypass_url
          (toL "/en-GB/lounges/" ++ country_slug ++ '/' :: original_airport ++ '/' :: detail_slug)
        let d ← is_lounge_detail_url rebuilt
        if d then .ok (some rebuilt) else .ok none
      else .ok none

/-! ## Page-extraction records, deduplication, IATA resolution -/

/-- An extracted experience record; only the fields relevant to the claims are
kept, with `experience_name` standing for the remaining per-record payload. -/
structure ExperienceItem where
  experience_type : Str
  experience_detail_slug : Str
  experience_name : Str
deriving DecidableEq

/-- The deduplication key (line 367): `(experience_type, experience_detail_slug)`. -/
def itemKey (it : ExperienceItem) : Str × Str :=
  (it.experience_type, it.experience_detail_slug)

/-- Loop of `parse_airport_page.dedupe` (lines 363-372): the `seen` set is a
list of keys already emitted. -/
def dedupeAux : List (Str × Str) → List ExperienceItem → List ExperienceItem
  | _, [] => []
  | seen, it :: rest =>
    if itemKey it ∈ seen then dedupeAux seen rest
    else it :: dedupeAux (itemKey it :: seen) rest

/-- `parse_airport_page.dedupe` (lines 362-375): drop every record whose key
was already seen. -/
def dedupe (items : List ExperienceItem) : List ExperienceItem := dedupeAux [] items

/-- Modelled from the spec: "first occurrence wins" — keep each record whose
key has not appeared earlier, in input order (the claim's description of the
deduplication; to be compared with `dedupe`). -/
def firstOccurrences : List ExperienceItem → List ExperienceItem
  | [] => []
  | it :: rest =>
    it :: firstOccurrences (rest.filter (fun j => itemKey j ≠ itemKey it))
termination_by l => l.length
decreasing_by
  simp only [List.length_cons]
  exact Nat.lt_succ_of_le (List.length_filter_le _ _)

/-- A word character for the `\b` boundary of the IATA regexes: ASCII
alphanumerics and `_`; non-ASCII characters are conservatively treated as word
characters (exact for letters, which is all that can occur in a title). -/
def wordChar (c : Char) : Bool := c.isAlphanum || c == '_' || 127 < c.toNat

/-- An ASCII uppercase letter (the `[A-Z]` class). -/
def isUpperAZ (c : Char) : Bool := 'A' ≤ c && c ≤ 'Z'

/-- `re.findall(r"\b([A-Z]{3})\b", text)` scanning loop: the flag records
whether the previous character was a word character (so `\b` holds iff it was
not); after a match the scan resumes past the matched letters. -/
def findIataAux : Bool → Str → List Str
  | _, [] => []
  | prevWord, a :: rest =>
    match rest with
    | b :: c :: rest2 =>
      if !prevWord && isUpperAZ a && isUpperAZ b && isUpperAZ c
          && (rest2.isEmpty || !wordChar (rest2.headD ' ')) then
        [a, b, c] :: findIataAux true rest2
      else
        findIataAux (wordChar a) (b :: c :: rest2)
    | _ => []

/-- Order-preserving deduplication with a `seen` set (lines 196-202). -/
def dedupStrsAux : List Str → List Str → List Str
  | _, [] => []
  | seen, x :: xs =>
    if x ∈ seen then dedupStrsAux seen xs
    else x :: dedupStrsAux (x :: seen) xs

/-- `extract_iata_candidates` (lines 192-202): all distinct `\b[A-Z]{3}\b`
tokens of `text.upper()`, in order of first appearance. -/
def extract_iata_candidates (text : Str) : List Str :=
  if text = [] then []
  else dedupStrsAux [] (findIataAux false (upperStr text))

/-- Attempt `([A-Z]{3})\s+Lounges\b` at the start of the remaining input (the
leading `\b` has already been checked by the caller). -/
def matchIataLoungesAt : Str → Option Str
  | a :: b :: c :: d :: rest =>
    if isUpperAZ a && isUpperAZ b && isUpperAZ c && pyIsSpace d then
      let rest2 := rest.dropWhile pyIsSpace
      if strStarts (toL "Lounges") rest2 then
        let after := rest2.drop 7
        if after.isEmpty || !wordChar (after.headD ' ') then some [a, b, c]
        else none
      else none
    else none
  | _ => none

/-- `re.search(r"\b([A-Z]{3})\s+Lounges\b", s)` scanning loop (leftmost match). -/
def searchIataLounges : Bool → Str → Option Str
  | _, [] => none
  | prevWord, c :: rest =>
    match (if !prevWord then matchIataLoungesAt (c :: rest) else none) with
    | some m => some m
    | none => searchIataLounges (wordChar c) rest

/-- `iata_from_title` (lines 292-296): search the upper-cased page title for
`\b([A-Z]{3})\s+Lounges\b`. -/
def iata_from_title (title : Str) : Option Str :=
  searchIataLounges false (upperStr title)

/-- `re.fullmatch(r"[A-Z]{3}", c)` as a boolean. -/
def isUpper3 (s : Str) : Bool := s.length == 3 && s.all isUpperAZ

/-- The airport-IATA resolution of `parse_airport_page` (lines 377-389):
collect the truthy `iata_from_code` of each deduplicated lounge item in order,
then `iata_from_title` when present, then every bare 3-uppercase-letter token
of the title; pick the first candidate that fully matches `[A-Z]{3}`. -/
def resolve_airport_iata (loungeItemCodes : List (Option Str)) (title : Str) : Option Str :=
  let all_iata_candidates :=
    loungeItemCodes.filterMap id
      ++ (match iata_from_title title with | some c => [c] | none => [])
      ++ extract_iata_candidates title
  all_iata_candidates.find? isUpper3

/-! ## Aggregation (`run_pipeline`, steps 5-6) -/

/-- A row of the world-airports reference table; the numeric payload of a
coordinate is irrelevant to the pipeline's filter (only presence — pandas
`notna` — is tested), so it is carried as an `Int`; a missing/NaN coordinate
is `none`. -/
structure WorldAirportRow where
  iata_code : Str
  name : Str
  latitude_deg : Option Int
  longitude_deg : Option Int
deriving DecidableEq

/-- A world-airports row after the left merge with the grouped lounge counts:
`lounge_count` is `none` where the merge found no lounge group (pandas NaN). -/
structure EnrichedAirportRow where
  base : WorldAirportRow
  lounge_count : Option Nat
deriving DecidableEq

/-- The left merge of lines 1015-1019: every world row is kept, and
`lounge_count` is looked up by `iata_code` in the grouped lounge table
(whose keys are unique, being the output of a groupby). -/
def merge_left (world : List WorldAirportRow) (grouped : List (Str × Nat)) :
    List EnrichedAirportRow :=
  world.map (fun w => ⟨w, grouped.lookup w.iata_code⟩)

/-- `has_priority_lounge` (line 1020): `lounge_count.fillna(0) > 0`. -/
def has_priority_lounge (r : EnrichedAirportRow) : Bool := 0 < r.lounge_count.getD 0

/-- The map filter of lines 1021-1025: keep rows with `has_priority_lounge`
and both coordinates present. -/
def map_pin_filter (rows : List EnrichedAirportRow) : List EnrichedAirportRow :=
  rows.filter (fun r =>
    has_priority_lounge r && r.base.latitude_deg.isSome && r.base.longitude_deg.isSome)

/-! ## Extraction phase of `run_pipeline` (step 3, lines 798-843) -/

/-- The parts of a `parse_airport_page` result used by the extraction phase. -/
structure ParsedAirportPage where
  airport_slug : Str
  country_slug : Str
  airport_name_pp : Str
  airport_title : Str
  airport_iata : Option Str
  lounge_items : List ExperienceItem
  non_lounge_items : List ExperienceItem
deriving DecidableEq

/-- One row of `airport_summaries`; `error` is present exactly for pages whose
scrape task failed. -/
structure AirportSummaryRow where
  airport_url : Str
  airport_slug : Str
  country_slug : Str
  airport_name_pp : Str
  airport_title : Str
  airport_iata : Option Str
  lounge_count : Nat
  non_lounge_count : Nat
  all_experience_count : Nat
  error : Option Str
deriving DecidableEq

/-- Lines 805-835: a completed page task either yields a summary row from its
result, or — when the task raised — a placeholder row with empty fields, zero
counts and the error message.  (The error row stores `""` for the IATA code,
modelled as `some []`.) -/
def summarize_airport_outcome (url : Str) (outcome : Except Str ParsedAirportPage) :
    AirportSummaryRow :=
  match outcome with
  | .ok r =>
    ⟨url, r.airport_slug, r.country_slug, r.airport_name_pp, r.airport_title,
      r.airport_iata, r.lounge_items.length, r.non_lounge_items.length,
      r.lounge_items.length + r.non_lounge_items.length, none⟩
  | .error e => ⟨url, [], [], [], [], some [], 0, 0, 0, some e⟩

/-- Line 820: `lounge_items_all` accumulates the lounge items of every page
whose task succeeded. -/
def collected_lounge_items (pages : List (Str × Except Str ParsedAirportPage)) :
    List ExperienceItem :=
  pages.foldr
    (fun p acc => match p.2 with | .ok r => r.lounge_items ++ acc | .error _ => acc) []

/-- Lines 798-843: the per-airport scrape fan-out followed by the empty-check.
Each page's task outcome is an oracle input; the phase aborts (RuntimeError,
line 843) exactly when no lounge record at all was collected, and otherwise
returns all summary rows and the collected lounge records. -/
def scrape_phase (pages : List (Str × Except Str ParsedAirportPage)) :
    Except Str (List AirportSummaryRow × List ExperienceItem) :=
  let summaries := pages.map (fun p => summarize_airport_outcome p.1 p.2)
  let lounges := collected_lounge_items pages
  if lounges = [] then .error (toL "No lounge records found. Scraper output is empty.")
  else .ok (summaries, lounges)

/-! ## Decidable equality for `Except` results -/

deriving instance DecidableEq for Except

/-! ## Lemmas on deduplication (claim C5) -/

theorem firstOccurrences_nil : firstOccurrences [] = [] := by
  rw [firstOccurrences.eq_def]

theorem firstOccurrences_cons (it : ExperienceItem) (rest : List ExperienceItem) :
    firstOccurrences (it :: rest)
      = it :: firstOccurrences (rest.filter (fun j => decide (itemKey j ≠ itemKey it))) := by
  rw [firstOccurrences.eq_def]

theorem dedupeAux_eq_firstOccurrences (l : List ExperienceItem) :
    ∀ seen, dedupeAux seen l = firstOccurrences (l.filter (fun x => decide (itemKey x ∉ seen))) := by
  induction l with
  | nil => intro seen; simp [dedupeAux, firstOccurrences_nil]
  | cons it rest ih =>
    intro seen
    by_cases h : itemKey it ∈ seen
    · rw [dedupeAux, if_pos h, List.filter_cons]
      simp only [h, not_true_eq_false, decide_False, if_neg (Bool.false_ne_true)]
      exact ih seen
    · rw [dedupeAux, if_neg h, List.filter_cons]
      simp only [h, not_false_eq_true, decide_True]
      rw [if_pos trivial]
      rw [firstOccurrences_cons, ih (itemKey it :: seen), List.filter_filter]
      congr 1
      congr 1
      apply List.filter_congr
      intro x _
      by_cases hx : itemKey x = itemKey it <;> by_cases hs : itemKey x ∈ seen <;>
        simp [hx, hs, List.mem_cons]

theorem dedupe_eq_firstOccurrences (l : List ExperienceItem) :
    dedupe l = firstOccurrences l := by
  rw [dedupe, dedupeAux_eq_firstOccurrences l []]
  congr 1
  apply List.filter_eq_self.mpr
  intro a _
  simp

theorem mem_of_mem_firstOccurrences :
    ∀ (n : Nat) (l : List ExperienceItem), l.length ≤ n →
      ∀ x, x ∈ firstOccurrences l → x ∈ l := by
  intro n
  induction n with
  | zero =>
    intro l hl x hx
    cases l with
    | nil =>
      rw [firstOccurrences_nil] at hx
      exact hx
    | cons a t => simp at hl
  | succ n ih =>
    intro l hl x hx
    cases l with
    | nil =>
      rw [firstOccurrences_nil] at hx
      exact hx
    | cons it rest =>
      rw [firstOccurrences_cons] at hx
      rcases List.mem_cons.mp hx with h | h
      · exact h ▸ List.mem_cons_self _ _
      · have hlen : (rest.filter (fun j => decide (itemKey j ≠ itemKey it))).length ≤ n := by
          have := List.length_filter_le (fun j => decide (itemKey j ≠ itemKey it)) rest
          have hr : rest.length ≤ n := Nat.le_of_succ_le_succ hl
          omega
        have := ih _ hlen x h
        exact List.mem_cons_of_mem _ (List.mem_of_mem_filter this)

theorem firstOccurrences_idem :
    ∀ (n : Nat) (l : List ExperienceItem), l.length ≤ n →
      firstOccurrences (firstOccurrences l) = firstOccurrences l := by
  intro n
  induction n with
  | zero =>
    intro l hl
    cases l with
    | nil => simp [firstOccurrences_nil]
    | cons a t => simp at hl
  | succ n ih =>
    intro l hl
    cases l with
    | nil => simp [firstOccurrences_nil]
    | cons it rest =>
      rw [firstOccurrences_cons, firstOccurrences_cons]
      congr 1
      have hlen : (rest.filter (fun j => decide (itemKey j ≠ itemKey it))).length ≤ n := by
        have := List.length_filter_le (fun j => decide (itemKey j ≠ itemKey it)) rest
        have hr : rest.length ≤ n := Nat.le_of_succ_le_succ hl
        omega
      have hno : (firstOccurrences (rest.filter (fun j => decide (itemKey j ≠ itemKey it)))).filter
          (fun j => decide (itemKey j ≠ itemKey it))
          = firstOccurrences (rest.filter (fun j => decide (itemKey j ≠ itemKey it))) := by
        apply List.filter_eq_self.mpr
        intro a ha
        have := mem_of_mem_firstOccurrences n _ hlen a ha
        exact (List.mem_filter.mp this).2
      rw [hno]
      exact ih _ hlen

theorem firstOccurrences_doubling :
    ∀ (n : Nat) (l : List ExperienceItem), l.length ≤ n →
      firstOccurrences (l ++ l) = firstOccurrences l := by
  intro n
  induction n with
  | zero =>
    intro l hl
    cases l with
    | nil => simp
    | cons a t => simp at hl
  | succ n ih =>
    intro l hl
    cases l with
    | nil => simp
    | cons it rest =>
      have hstep : (it :: rest) ++ (it :: rest) = it :: (rest ++ it :: rest) := by simp
      rw [hstep, firstOccurrences_cons, firstOccurrences_cons, List.filter_append,
        List.filter_cons]
      simp only [ne_eq, not_true_eq_false, decide_False]
      rw [if_neg (Bool.false_ne_true)]
      congr 1
      have hlen : (rest.filter (fun j => decide (itemKey j ≠ itemKey it))).length ≤ n := by
        have := List.length_filter_le (fun j => decide (itemKey j ≠ itemKey it)) rest
        have hr : rest.length ≤ n := Nat.le_of_succ_le_succ hl
        omega
      exact ih _ hlen

theorem mem_firstOccurrences_append :
    ∀ (n : Nat) (a b : List ExperienceItem), (a ++ b).length ≤ n →
      ∀ x, x ∈ firstOccurrences (a ++ b) →
        x ∈ a ∨ (x ∈ b ∧ ∀ y ∈ a, itemKey y ≠ itemKey x) := by
  intro n
  induction n with
  | zero =>
    intro a b hl x hx
    cases a with
    | nil =>
      cases b with
      | nil =>
        rw [List.nil_append, firstOccurrences_nil] at hx
        exact absurd hx (List.not_mem_nil x)
      | cons u v => simp at hl
    | cons u v => simp at hl
  | succ n ih =>
    intro a b hl x hx
    cases a with
    | nil =>
      refine Or.inr ⟨?_, ?_⟩
      · rw [List.nil_append] at hx
        exact mem_of_mem_firstOccurrences b.length b (le_refl _) x hx
      · intro y hy
        exact absurd hy (List.not_mem_nil y)
    | cons it rest =>
      rw [List.cons_append, firstOccurrences_cons] at hx
      rcases List.mem_cons.mp hx with h | h
      · exact Or.inl (h ▸ List.mem_cons_self _ _)
      · rw [List.filter_append] at h
        have hlen : ((rest.filter (fun j => decide (itemKey j ≠ itemKey it)))
            ++ (b.filter (fun j => decide (itemKey j ≠ itemKey it)))).length ≤ n := by
          rw [List.length_append]
          have h1 := List.length_filter_le (fun j => decide (itemKey j ≠ itemKey it)) rest
          have h2 := List.length_filter_le (fun j => decide (itemKey j ≠ itemKey it)) b
          have hr : rest.length + b.length ≤ n := by
            rw [List.cons_append, List.length_cons, List.length_append] at hl
            omega
          omega
        rcases ih _ _ hlen x h with hc | ⟨hxb, hall⟩
        · exact Or.inl (List.mem_cons_of_mem _ (List.mem_of_mem_filter hc))
        · have hxq : itemKey x ≠ itemKey it := by
            have := (List.mem_filter.mp hxb).2
            simpa using this
          refine Or.inr ⟨(List.mem_filter.mp hxb).1, ?_⟩
          intro y hy
          rcases List.mem_cons.mp hy with rfl | hyr
          · exact fun hk => hxq hk.symm
          · intro hk
            have hyq : y ∈ rest.filter (fun j => decide (itemKey j ≠ itemKey it)) := by
              refine List.mem_filter.mpr ⟨hyr, ?_⟩
              simpa using hk ▸ hxq
            exact hall y hyq hk

/-- Claim C5: deduplication of extracted experience records keeps, for every
list, exactly the first occurrence of each `(experience_type,
experience_detail_slug)` key in input order (`firstOccurrences`, written from
the claim's words), is idempotent, collapses a self-concatenated list, and an
item of the second (embedded-payload) block survives only when no item of the
first (anchor) block carries its key — so the anchor record wins. -/
theorem dedupe_first_occurrence_wins :
    ∀ (l a b : List ExperienceItem),
      dedupe l = firstOccurrences l
      ∧ dedupe (dedupe l) = dedupe l
      ∧ dedupe (l ++ l) = dedupe l
      ∧ (∀ x ∈ dedupe (a ++ b), x ∈ a ∨ (x ∈ b ∧ ∀ y ∈ a, itemKey y ≠ itemKey x)) := by
  intro l a b
  have h1 := dedupe_eq_firstOccurrences l
  refine ⟨h1, ?_, ?_, ?_⟩
  · calc dedupe (dedupe l) = firstOccurrences (dedupe l) := dedupe_eq_firstOccurrences _
      _ = firstOccurrences (firstOccurrences l) := by rw [h1]
      _ = firstOccurrences l := firstOccurrences_idem l.length l (le_refl _)
      _ = dedupe l := h1.symm
  · calc dedupe (l ++ l) = firstOccurrences (l ++ l) := dedupe_eq_firstOccurrences _
      _ = firstOccurrences l := firstOccurrences_doubling l.length l (le_refl _)
      _ = dedupe l := h1.symm
  · intro x hx
    rw [dedupe_eq_firstOccurrences] at hx
    exact mem_firstOccurrences_append (a ++ b).length a b (le_refl _) x hx

/-- Witness for `dedupe_first_occurrence_wins`: an embedded-payload record
sharing its key with an anchor record, fed through the theorem at the
concrete deduplicated merge. -/
theorem dedupe_first_occurrence_wins_witness :
    (⟨toL "LOUNGE", toL "atl10-the-club", toL "The Club (anchor)"⟩ : ExperienceItem)
        ∈ [(⟨toL "LOUNGE", toL "atl10-the-club", toL "The Club (anchor)"⟩ : ExperienceItem)]
      ∨ ((⟨toL "LOUNGE", toL "atl10-the-club", toL "The Club (anchor)"⟩ : ExperienceItem)
          ∈ [(⟨toL "LOUNGE", toL "atl10-the-club", toL "The Club (payload)"⟩ : ExperienceItem)]
        ∧ ∀ y ∈ [(⟨toL "LOUNGE", toL "atl10-the-club", toL "The Club (anchor)"⟩ : ExperienceItem)],
            itemKey y ≠ itemKey (⟨toL "LOUNGE", toL "atl10-the-club", toL "The Club (anchor)"⟩ : ExperienceItem)) :=
  (dedupe_first_occurrence_wins []
      [⟨toL "LOUNGE", toL "atl10-the-club", toL "The Club (anchor)"⟩]
      [⟨toL "LOUNGE", toL "atl10-the-club", toL "The Club (payload)"⟩]).2.2.2
    ⟨toL "LOUNGE", toL "atl10-the-club", toL "The Club (anchor)"⟩ (by decide)

/-! ## Claim C6: the map-pin filter -/

/-- Claim C6: after the left join, a row is in the final map dataset iff
`has_priority_lounge` holds (joined `lounge_count` > 0 after `fillna(0)`) and
both coordinates are present; in particular a row missing a coordinate is
excluded whatever its count, and a row whose filled count is 0 is excluded
whatever its coordinates. -/
theorem map_dataset_inclusion_iff :
    ∀ (world : List WorldAirportRow) (grouped : List (Str × Nat)) (r : EnrichedAirportRow),
      (r ∈ map_pin_filter (merge_left world grouped) ↔
        r ∈ merge_left world grouped ∧ 0 < r.lounge_count.getD 0
          ∧ r.base.latitude_deg.isSome = true ∧ r.base.longitude_deg.isSome = true)
      ∧ (r.base.latitude_deg = none ∨ r.base.longitude_deg = none →
          r ∉ map_pin_filter (merge_left world grouped))
      ∧ (r.lounge_count.getD 0 = 0 → r ∉ map_pin_filter (merge_left world grouped)) := by
  intro world grouped r
  have hiff : r ∈ map_pin_filter (merge_left world grouped) ↔
      r ∈ merge_left world grouped ∧ 0 < r.lounge_count.getD 0
        ∧ r.base.latitude_deg.isSome = true ∧ r.base.longitude_deg.isSome = true := by
    rw [map_pin_filter, List.mem_filter]
    constructor
    · rintro ⟨hm, hb⟩
      simp only [Bool.and_eq_true, has_priority_lounge, decide_eq_true_eq] at hb
      exact ⟨hm, hb.1.1, hb.1.2, hb.2⟩
    · rintro ⟨hm, h1, h2, h3⟩
      refine ⟨hm, ?_⟩
      simp only [Bool.and_eq_true, has_priority_lounge, decide_eq_true_eq]
      exact ⟨⟨h1, h2⟩, h3⟩
  refine ⟨hiff, ?_, ?_⟩
  · rintro (h | h) hmem
    · rcases (hiff.mp hmem) with ⟨-, -, h2, -⟩
      rw [h] at h2
      exact Bool.false_ne_true h2
    · rcases (hiff.mp hmem) with ⟨-, -, -, h3⟩
      rw [h] at h3
      exact Bool.false_ne_true h3
  · intro h hmem
    rcases (hiff.mp hmem) with ⟨-, h1, -, -⟩
    omega

/-- Witness for `map_dataset_inclusion_iff`: an airport with a lounge count of
3 but no latitude is excluded from the map dataset. -/
theorem map_dataset_inclusion_iff_witness :
    (⟨⟨toL "ATL", toL "Hartsfield-Jackson", none, some 33⟩, some 3⟩ : EnrichedAirportRow)
      ∉ map_pin_filter (merge_left
          [⟨toL "ATL", toL "Hartsfield-Jackson", none, some 33⟩] [(toL "ATL", 3)]) :=
  (map_dataset_inclusion_iff
      [⟨toL "ATL", toL "Hartsfield-Jackson", none, some 33⟩] [(toL "ATL", 3)]
      ⟨⟨toL "ATL", toL "Hartsfield-Jackson", none, some 33⟩, some 3⟩).2.1 (Or.inl rfl)

/-! ## Claim C9: zero extracted lounges abort the run -/

/-- Claim C9: the extraction phase aborts with the `RuntimeError` message
exactly when zero lounge records were collected across the whole run; with at
least one lounge record it returns normally, every page contributing a summary
row, and a page whose task failed contributes the placeholder row (empty
fields, zero counts, the error message) instead of stopping the run. -/
theorem zero_lounge_extraction_is_fatal :
    ∀ pages : List (Str × Except Str ParsedAirportPage),
      (collected_lounge_items pages = [] →
        scrape_phase pages = .error (toL "No lounge records found. Scraper output is empty."))
      ∧ (collected_lounge_items pages ≠ [] →
        scrape_phase pages =
          .ok (pages.map (fun p => summarize_airport_outcome p.1 p.2),
               collected_lounge_items pages))
      ∧ (∀ url e, (url, Except.error e) ∈ pages →
          (⟨url, [], [], [], [], some [], 0, 0, 0, some e⟩ : AirportSummaryRow)
            ∈ pages.map (fun p => summarize_airport_outcome p.1 p.2)) := by
  intro pages
  refine ⟨?_, ?_, ?_⟩
  · intro h
    rw [scrape_phase, if_pos h]
  · intro h
    rw [scrape_phase, if_neg h]
  · intro url e hmem
    exact List.mem_map.mpr ⟨(url, Except.error e), hmem, rfl⟩

/-- Witness for `zero_lounge_extraction_is_fatal`: a two-page run where one
page fails and the other yields a lounge record returns normally with the
failing page's placeholder row present. -/
theorem zero_lounge_extraction_is_fatal_witness :
    (⟨toL "https://www.prioritypass.com/lounges/usa/atl", [], [], [], [], some [],
        0, 0, 0, some (toL "timeout")⟩ : AirportSummaryRow)
      ∈ ([(toL "https://www.prioritypass.com/lounges/usa/atl",
            (Except.error (toL "timeout") : Except Str ParsedAirportPage)),
          (toL "https://www.prioritypass.com/lounges/usa/sfo",
            Except.ok ⟨toL "sfo", toL "usa", toL "SFO", toL "SFO Lounges", some (toL "SFO"),
              [⟨toL "LOUNGE", toL "sfo1-club", toL "The Club SFO"⟩], []⟩)].map
          (fun p => summarize_airport_outcome p.1 p.2)) :=
  (zero_lounge_extraction_is_fatal
      [(toL "https://www.prioritypass.com/lounges/usa/atl", Except.error (toL "timeout")),
       (toL "https://www.prioritypass.com/lounges/usa/sfo",
         Except.ok ⟨toL "sfo", toL "usa", toL "SFO", toL "SFO Lounges", some (toL "SFO"),
           [⟨toL "LOUNGE", toL "sfo1-club", toL "The Club SFO"⟩], []⟩)]).2.2
    (toL "https://www.prioritypass.com/lounges/usa/atl") (toL "timeout") (by decide)

/-! ## Claim C8: the title-IATA fallback -/

theorem char_ofNat_toNat (n : Nat) (h : n.isValidChar) : (Char.ofNat n).toNat = n := by
  unfold Char.ofNat
  rw [dif_pos h]
  rfl

/-- `str.upper()` never produces a lowercase letter: in particular no
character upper-cases to `'o'`. -/
theorem pyToUpper_ne_o (c : Char) : pyToUpper c ≠ 'o' := by
  unfold pyToUpper Char.toUpper
  simp only
  by_cases h : c.toNat ≥ 97 ∧ c.toNat ≤ 122
  · rw [if_pos h]
    intro heq
    have hvalid : (c.toNat - 32).isValidChar := by
      left
      omega
    have hv : (Char.ofNat (c.toNat - 32)).toNat = c.toNat - 32 := char_ofNat_toNat _ hvalid
    rw [heq] at hv
    have h111 : (111 : Nat) = c.toNat - 32 := hv
    omega
  · rw [if_neg h]
    intro heq
    apply h
    rw [heq]
    exact ⟨by decide, by decide⟩

theorem mem_of_strStarts : ∀ (p s : Str), strStarts p s = true → ∀ c ∈ p, c ∈ s := by
  intro p
  induction p with
  | nil =>
    intro s _ c hc
    exact absurd hc (List.not_mem_nil c)
  | cons a as ih =>
    intro s hs c hc
    cases s with
    | nil => exact absurd hs (by simp [strStarts])
    | cons b bs =>
      rw [strStarts, Bool.and_eq_true, beq_iff_eq] at hs
      rcases List.mem_cons.mp hc with rfl | hm
      · exact hs.1 ▸ List.mem_cons_self b bs
      · exact List.mem_cons_of_mem b (ih bs hs.2 c hm)

theorem matchIataLoungesAt_none (s : Str) (ho : 'o' ∉ s) : matchIataLoungesAt s = none := by
  match s with
  | [] => rfl
  | [a] => rfl
  | [a, b] => rfl
  | [a, b, c] => rfl
  | a :: b :: c :: d :: rest =>
    rw [matchIataLoungesAt]
    by_cases h1 : (isUpperAZ a && isUpperAZ b && isUpperAZ c && pyIsSpace d) = true
    · rw [if_pos h1]
      have hfalse : ¬ strStarts (toL "Lounges") (rest.dropWhile pyIsSpace) = true := by
        intro hstart
        have hmem : 'o' ∈ rest.dropWhile pyIsSpace :=
          mem_of_strStarts _ _ hstart 'o' (by decide)
        have : 'o' ∈ rest := (List.dropWhile_sublist pyIsSpace).subset hmem
        exact ho (by simp [List.mem_cons, this])
      rw [if_neg hfalse]
    · rw [if_neg h1]

theorem searchIataLounges_none :
    ∀ (s : Str) (prev : Bool), 'o' ∉ s → searchIataLounges prev s = none := by
  intro s
  induction s with
  | nil => intro prev _; rfl
  | cons c rest ih =>
    intro prev ho
    have hoc : 'o' ∉ rest := fun h => ho (List.mem_cons_of_mem c h)
    have hm : matchIataLoungesAt (c :: rest) = none := matchIataLoungesAt_none _ ho
    rw [searchIataLounges]
    cases prev with
    | false =>
      simp only [Bool.not_false]
      rw [if_pos trivial, hm]
      exact ih (wordChar c) hoc
    | true =>
      simp only [Bool.not_true]
      rw [if_neg Bool.false_ne_true]
      exact ih (wordChar c) hoc

/-- The title fallback is dead code: `re.search(r"\b([A-Z]{3})\s+Lounges\b",
title.upper())` can never match, because the upper-cased title contains no
lowercase `'o'` while the literal `Lounges` requires one. -/
theorem iata_from_title_eq_none (title : Str) : iata_from_title title = none := by
  rw [iata_from_title]
  apply searchIataLounges_none
  intro hmem
  rcases List.mem_map.mp hmem with ⟨c, -, hc⟩
  exact pyToUpper_ne_o c hc

/-- Claim C8: the airport-IATA resolution evaluated against its intended
candidate order.  The code collects the lounge items' code-derived IATAs, the
title-marker IATA and the bare title tokens in that order and picks the first
full `[A-Z]{3}` match — but the title-marker source (b) can never produce a
candidate (`iata_from_title` is constantly `none`, first conjunct), so on the
failing input, the title `"San Francisco SFO Lounges"` with no lounge codes —
exactly the shape documented in the source comment (`"... SFO Lounges ..."`) —
the resolution falls through to the bare-token scan and yields `SAN` instead
of the marker-adjacent `SFO`.  With a lounge code present, source (a) still
takes precedence. -/
theorem airport_iata_resolution_title_marker :
    (∀ title : Str, iata_from_title title = none)
    ∧ resolve_airport_iata [] (toL "San Francisco SFO Lounges") = some (toL "SAN")
    ∧ extract_iata_candidates (toL "San Francisco SFO Lounges") = [toL "SAN", toL "SFO"]
    ∧ resolve_airport_iata [some (toL "JFK")] (toL "San Francisco SFO Lounges")
        = some (toL "JFK") :=
  ⟨iata_from_title_eq_none, by decide, by decide, by decide⟩

/-! ## Toolkit lemmas for the URL model -/

theorem exc_bind_ok {α β : Type} (a : α) (f : α → Except PyErr β) :
    (Except.ok a >>= f) = f a := rfl

theorem exc_bind_error {α β : Type} (e : PyErr) (f : α → Except PyErr β) :
    ((Except.error e : Except PyErr α) >>= f) = Except.error e := rfl

theorem exc_pure_bind {α β : Type} (a : α) (f : α → Except PyErr β) :
    ((pure a : Except PyErr α) >>= f) = f a := rfl

theorem splitOnFirst_eq_none {sep : Char} :
    ∀ s : Str, sep ∉ s → splitOnFirst sep s = none := by
  intro s
  induction s with
  | nil => intro _; rfl
  | cons c rest ih =>
    intro h
    have hcs : ¬ c = sep := by
      intro hc
      subst hc
      exact h (List.mem_cons_self c rest)
    rw [splitOnFirst, if_neg hcs, ih (fun hm => h (List.mem_cons_of_mem c hm))]
    rfl

theorem cutFirst_no_sep {sep : Char} (s : Str) (h : sep ∉ s) : cutFirst sep s = (s, []) := by
  rw [cutFirst, splitOnFirst_eq_none s h]

theorem not_mem_of_splitOnFirst_none {sep : Char} :
    ∀ s : Str, splitOnFirst sep s = none → sep ∉ s := by
  intro s
  induction s with
  | nil => intro _ h; exact absurd h (List.not_mem_nil sep)
  | cons c rest ih =>
    intro hn hmem
    rw [splitOnFirst] at hn
    by_cases hc : c = sep
    · rw [if_pos hc] at hn
      exact Option.noConfusion hn
    · rw [if_neg hc] at hn
      cases hsp : splitOnFirst sep rest with
      | some p => rw [hsp] at hn; exact Option.noConfusion hn
      | none =>
        rcases List.mem_cons.mp hmem with rfl | hm
        · exact hc rfl
        · exact ih hsp hm

theorem splitOnFirst_fst_no_sep {sep : Char} :
    ∀ (s a b : Str), splitOnFirst sep s = some (a, b) → sep ∉ a := by
  intro s
  induction s with
  | nil => intro a b h; exact absurd h (by rw [splitOnFirst]; exact Option.noConfusion)
  | cons c rest ih =>
    intro a b h
    rw [splitOnFirst] at h
    by_cases hc : c = sep
    · rw [if_pos hc] at h
      cases h
      exact List.not_mem_nil sep
    · rw [if_neg hc] at h
      cases hsp : splitOnFirst sep rest with
      | none => rw [hsp] at h; exact absurd h (by exact Option.noConfusion)
      | some p =>
        rw [hsp] at h
        cases h
        intro hmem
        rcases List.mem_cons.mp hmem with rfl | hm
        · exact hc rfl
        · exact ih p.1 p.2 (by rw [hsp]) hm

theorem cutFirst_fst_no_sep {sep : Char} (s : Str) : sep ∉ (cutFirst sep s).1 := by
  rw [cutFirst]
  cases hsp : splitOnFirst sep s with
  | none => exact not_mem_of_splitOnFirst_none s hsp
  | some p => exact splitOnFirst_fst_no_sep s p.1 p.2 hsp

theorem mem_splitOnFirst_fst {sep : Char} :
    ∀ (s a b : Str), splitOnFirst sep s = some (a, b) → ∀ c ∈ a, c ∈ s := by
  intro s
  induction s with
  | nil => intro a b h; exact absurd h (by rw [splitOnFirst]; exact Option.noConfusion)
  | cons c rest ih =>
    intro a b h d hd
    rw [splitOnFirst] at h
    by_cases hc : c = sep
    · rw [if_pos hc] at h
      cases h
      exact absurd hd (List.not_mem_nil d)
    · rw [if_neg hc] at h
      cases hsp : splitOnFirst sep rest with
      | none => rw [hsp] at h; exact absurd h (by exact Option.noConfusion)
      | some p =>
        rw [hsp] at h
        cases h
        rcases List.mem_cons.mp hd with rfl | hm
        · exact List.mem_cons_self d rest
        · exact List.mem_cons_of_mem c (ih p.1 p.2 (by rw [hsp]) d hm)

theorem mem_cutFirst_fst {sep : Char} (s : Str) : ∀ c ∈ (cutFirst sep s).1, c ∈ s := by
  rw [cutFirst]
  cases hsp : splitOnFirst sep s with
  | none => intro c hc; exact hc
  | some p => exact mem_splitOnFirst_fst s p.1 p.2 hsp

theorem takeWhile_append_all {p : Char → Bool} :
    ∀ (n rest : Str), (∀ c ∈ n, p c = true) → (rest = [] ∨ p (rest.headD ' ') = false) →
      (n ++ rest).takeWhile p = n ∧ (n ++ rest).dropWhile p = rest := by
  intro n
  induction n with
  | nil =>
    intro rest _ hr
    rcases hr with rfl | hr
    · exact ⟨rfl, rfl⟩
    · cases rest with
      | nil => exact ⟨rfl, rfl⟩
      | cons c t =>
        simp only [List.headD_cons] at hr
        constructor
        · rw [List.nil_append, List.takeWhile_cons, hr]
          rw [if_neg Bool.false_ne_true]
        · rw [List.nil_append, List.dropWhile_cons, hr]
          rw [if_neg Bool.false_ne_true]
  | cons a t ih =>
    intro rest hn hr
    have ha : p a = true := hn a (List.mem_cons_self a t)
    have ht : ∀ c ∈ t, p c = true := fun c hc => hn c (List.mem_cons_of_mem a hc)
    rcases ih rest ht hr with ⟨h1, h2⟩
    constructor
    · rw [List.cons_append, List.takeWhile_cons, ha, if_pos rfl, h1]
    · rw [List.cons_append, List.dropWhile_cons, ha, if_pos rfl, h2]

theorem splitSchemeAux_reaches :
    ∀ (pre acc rest : Str), (∀ c ∈ pre, schemeChar c = true) →
      splitSchemeAux acc (pre ++ ':' :: rest) = some ((pre.reverse ++ acc).reverse, rest) := by
  intro pre
  induction pre with
  | nil =>
    intro acc rest _
    rw [List.nil_append, splitSchemeAux, if_pos rfl]
    simp
  | cons c t ih =>
    intro acc rest hpre
    have hc : schemeChar c = true := hpre c (List.mem_cons_self c t)
    have hcc : ¬ c = ':' := by
      intro h
      rw [h] at hc
      exact absurd hc (by decide)
    rw [List.cons_append, splitSchemeAux, if_neg hcc, if_pos hc,
      ih (c :: acc) rest (fun d hd => hpre d (List.mem_cons_of_mem c hd))]
    simp

theorem splitScheme_of_scheme (sch rest : Str)
    (hne : sch ≠ [])
    (hsc : ∀ c ∈ sch, schemeChar c = true)
    (hal : (sch.headD ' ').isAlpha = true) :
    splitScheme (sch ++ ':' :: rest) = (lowerStr sch, rest) := by
  cases sch with
  | nil => exact absurd rfl hne
  | cons c t =>
    simp only [List.headD_cons] at hal
    rw [List.cons_append, splitScheme]
    rw [if_pos hal]
    have hrec := splitSchemeAux_reaches (c :: t) [] rest hsc
    rw [List.cons_append] at hrec
    rw [hrec]
    simp

theorem splitScheme_id_of_not_alpha (s : Str)
    (h : s = [] ∨ (s.headD ' ').isAlpha = false) : splitScheme s = ([], s) := by
  rcases h with rfl | h
  · rfl
  · cases s with
    | nil => rfl
    | cons c t =>
      simp only [List.headD_cons] at h
      rw [splitScheme, if_neg (by rw [h]; exact Bool.false_ne_true)]

theorem char_toNat_of_isAlpha (c : Char) (h : c.isAlpha = true) : 64 < c.toNat := by
  rw [Char.isAlpha, Bool.or_eq_true, Char.isUpper, Char.isLower] at h
  simp only [Bool.and_eq_true, decide_eq_true_eq] at h
  rcases h with ⟨h1, _⟩ | ⟨h1, _⟩
  · have hle : (65 : UInt32).toNat ≤ c.val.toNat := h1
    have h65 : (65 : UInt32).toNat = 65 := rfl
    have hct : c.toNat = c.val.toNat := rfl
    omega
  · have hle : (97 : UInt32).toNat ≤ c.val.toNat := h1
    have h97 : (97 : UInt32).toNat = 97 := rfl
    have hct : c.toNat = c.val.toNat := rfl
    omega

theorem char_toNat_of_schemeChar (c : Char) (h : schemeChar c = true) : 42 < c.toNat := by
  rw [schemeChar] at h
  simp only [Bool.or_eq_true, beq_iff_eq] at h
  rcases h with (((ha | hd) | rfl) | rfl) | rfl
  · have := char_toNat_of_isAlpha c ha
    omega
  · unfold Char.isDigit at hd
    simp only [Bool.and_eq_true, decide_eq_true_eq] at hd
    have hle : (48 : UInt32).toNat ≤ c.val.toNat := hd.1
    have h48 : (48 : UInt32).toNat = 48 := rfl
    have hct : c.toNat = c.val.toNat := rfl
    omega
  · decide
  · decide
  · decide

theorem c0_eq_false_of_gt (c : Char) (h : 32 < c.toNat) : c0ControlOrSpace c = false := by
  rw [c0ControlOrSpace, decide_eq_false_iff_not, not_le]
  exact h

theorem unsafeUrlByte_eq_false_of_gt (c : Char) (h : 32 < c.toNat) : unsafeUrlByte c = false := by
  rw [unsafeUrlByte]
  have ht : ¬ c = '\t' := by
    intro hc
    rw [hc] at h
    exact absurd h (by decide)
  have hr : ¬ c = '\r' := by
    intro hc
    rw [hc] at h
    exact absurd h (by decide)
  have hn : ¬ c = '\n' := by
    intro hc
    rw [hc] at h
    exact absurd h (by decide)
  simp [ht, hr, hn]

theorem cleanUrl_eq_self (s : Str)
    (hh : s = [] ∨ c0ControlOrSpace (s.headD ' ') = false)
    (ht : ∀ c ∈ s, unsafeUrlByte c = false) : cleanUrl s = s := by
  rw [cleanUrl]
  have hdrop : s.dropWhile c0ControlOrSpace = s := by
    rcases hh with rfl | hh
    · rfl
    · cases s with
      | nil => rfl
      | cons c t =>
        simp only [List.headD_cons] at hh
        rw [List.dropWhile_cons, hh]
        rw [if_neg Bool.false_ne_true]
  rw [hdrop]
  apply List.filter_eq_self.mpr
  intro c hc
  rw [ht c hc]
  rfl

theorem urlsplitE_canonical (scheme netloc p : Str)
    (hs : scheme ≠ [])
    (hsc : ∀ c ∈ scheme, schemeChar c = true)
    (hsh : (scheme.headD ' ').isAlpha = true)
    (hnd : ∀ c ∈ netloc, netlocDelim c = false)
    (hnt : ∀ c ∈ netloc, unsafeUrlByte c = false)
    (hnb1 : '[' ∉ netloc) (hnb2 : ']' ∉ netloc)
    (hpt : ∀ c ∈ p, unsafeUrlByte c = false)
    (hph : p = [] ∨ netlocDelim (p.headD ' ') = true)
    (hpf : '#' ∉ p) (hpq : '?' ∉ p) :
    urlsplitE (scheme ++ ':' :: '/' :: '/' :: (netloc ++ p))
      = .ok ⟨lowerStr scheme, netloc, p, [], []⟩ := by
  have hclean : cleanUrl (scheme ++ ':' :: '/' :: '/' :: (netloc ++ p))
      = scheme ++ ':' :: '/' :: '/' :: (netloc ++ p) := by
    apply cleanUrl_eq_self
    · right
      cases scheme with
      | nil => exact absurd rfl hs
      | cons c t =>
        simp only [List.cons_append, List.headD_cons]
        apply c0_eq_false_of_gt
        have h1 := char_toNat_of_isAlpha c (by simpa using hsh)
        omega
    · intro c hc
      rcases List.mem_append.mp hc with hm | hm
      · apply unsafeUrlByte_eq_false_of_gt
        have := char_toNat_of_schemeChar c (hsc c hm)
        omega
      · rcases List.mem_cons.mp hm with rfl | hm
        · decide
        rcases List.mem_cons.mp hm with rfl | hm
        · decide
        rcases List.mem_cons.mp hm with rfl | hm
        · decide
        rcases List.mem_append.mp hm with hm | hm
        · exact hnt c hm
        · exact hpt c hm
  have hscheme : splitScheme (scheme ++ ':' :: '/' :: '/' :: (netloc ++ p))
      = (lowerStr scheme, '/' :: '/' :: (netloc ++ p)) :=
    splitScheme_of_scheme scheme _ hs hsc hsh
  have hspan := takeWhile_append_all (p := fun c => !netlocDelim c) netloc p
    (fun c hc => by
      show (!netlocDelim c) = true
      rw [hnd c hc]
      rfl)
    (by
      rcases hph with rfl | hph
      · exact Or.inl rfl
      · right
        show (!netlocDelim (p.headD ' ')) = false
        rw [hph]
        rfl)
  rw [urlsplitE, hclean, hscheme]
  simp only
  rw [if_pos (show strStarts (toL "//") ('/' :: '/' :: (netloc ++ p)) = true from rfl)]
  simp only [List.drop_succ_cons, List.drop_zero]
  rw [hspan.1, hspan.2]
  rw [if_neg (show ¬ ('[' ∈ netloc ∨ ']' ∈ netloc) from fun h => h.elim hnb1 hnb2)]
  rw [cutFirst_no_sep p hpf]
  simp only
  rw [cutFirst_no_sep p hpq]

theorem strStarts_iff : ∀ (pre s : Str), strStarts pre s = true ↔ ∃ t, s = pre ++ t := by
  intro pre
  induction pre with
  | nil =>
    intro s
    constructor
    · intro _; exact ⟨s, rfl⟩
    · intro _; rfl
  | cons a as ih =>
    intro s
    constructor
    · intro h
      cases s with
      | nil => exact absurd h (by rw [strStarts]; exact Bool.false_ne_true)
      | cons b bs =>
        rw [strStarts, Bool.and_eq_true, beq_iff_eq] at h
        rcases (ih bs).mp h.2 with ⟨t, rfl⟩
        exact ⟨t, by rw [List.cons_append, h.1]⟩
    · rintro ⟨t, rfl⟩
      rw [List.cons_append, strStarts, Bool.and_eq_true, beq_iff_eq]
      exact ⟨rfl, (ih (as ++ t)).mpr ⟨t, rfl⟩⟩

theorem strStarts_eq_false_iff (pre s : Str) :
    strStarts pre s = false ↔ ¬ ∃ t, s = pre ++ t := by
  rw [← strStarts_iff]
  constructor
  · intro h hc
    rw [h] at hc
    exact Bool.false_ne_true hc
  · intro h
    cases hb : strStarts pre s with
    | false => rfl
    | true => exact absurd hb h

theorem urlparseE_canonical (scheme netloc p : Str)
    (hs : scheme ≠ [])
    (hsc : ∀ c ∈ scheme, schemeChar c = true)
    (hsh : (scheme.headD ' ').isAlpha = true)
    (hnd : ∀ c ∈ netloc, netlocDelim c = false)
    (hnt : ∀ c ∈ netloc, unsafeUrlByte c = false)
    (hnb1 : '[' ∉ netloc) (hnb2 : ']' ∉ netloc)
    (hpt : ∀ c ∈ p, unsafeUrlByte c = false)
    (hph : p = [] ∨ netlocDelim (p.headD ' ') = true)
    (hpf : '#' ∉ p) (hpq : '?' ∉ p) (hps : ';' ∉ p) :
    urlparseE (scheme ++ ':' :: '/' :: '/' :: (netloc ++ p))
      = .ok ⟨lowerStr scheme, netloc, p, [], [], []⟩ := by
  rw [urlparseE, urlsplitE_canonical scheme netloc p hs hsc hsh hnd hnt hnb1 hnb2 hpt hph hpf hpq,
    exc_bind_ok]
  rw [if_neg (fun h => hps h.2)]

theorem urlparseE_myPP (p : Str)
    (hpt : ∀ c ∈ p, unsafeUrlByte c = false)
    (hph : strStarts (toL "/") p = true)
    (hpf : '#' ∉ p) (hpq : '?' ∉ p) (hps : ';' ∉ p) :
    urlparseE (toL "https://my.prioritypass.com" ++ p)
      = .ok ⟨toL "https", toL "my.prioritypass.com", p, [], [], []⟩ := by
  rcases (strStarts_iff (toL "/") p).mp hph with ⟨t, rfl⟩
  have hfix : toL "/" ++ t = '/' :: t := rfl
  rw [hfix] at hpt hpf hpq hps ⊢
  have heq : toL "https://my.prioritypass.com" ++ ('/' :: t)
      = toL "https" ++ ':' :: '/' :: '/' :: (toL "my.prioritypass.com" ++ ('/' :: t)) := rfl
  rw [heq, urlparseE_canonical (toL "https") (toL "my.prioritypass.com") ('/' :: t)
    (by decide) (by decide) (by decide) (by decide) (by decide) (by decide) (by decide)
    hpt (Or.inr (by rw [List.headD_cons]; rfl)) hpf hpq hps]
  rfl

theorem urlunparseStr_canonical (scheme netloc p : Str)
    (hsch : scheme ≠ []) (hn : netloc ≠ []) (hp : strStarts (toL "/") p = true) :
    urlunparseStr scheme netloc p [] [] [] = scheme ++ ':' :: '/' :: '/' :: (netloc ++ p) := by
  rw [urlunparseStr, if_neg (by simp), urlunsplitStr]
  rw [if_pos (Or.inl hn)]
  rw [if_neg (show ¬ (p ≠ [] ∧ ¬ strStarts (toL "/") p = true) from fun h => h.2 hp)]
  rw [if_pos hsch, if_neg (by simp), if_neg (by simp)]
  rfl

/-! ## Claim C4: the detail-URL classifier -/

/-- Claim C4: `is_lounge_detail_url` holds iff the URL's non-empty path
segments form the language-prefixed shape (≥ 5 segments, segment 0 the
language code case-insensitively, segment 1 the listing keyword) or the
unprefixed shape (≥ 4 segments, segment 0 the listing keyword); in particular
it is false for 3-segment and true for 4-segment unprefixed paths, and false
for 4-segment and true for 5-segment prefixed paths. -/
theorem is_detail_url_shape :
    (∀ (u : Str) (r : ParseResult), urlparseE u = .ok r →
      is_lounge_detail_url u =
        .ok (decide ((5 ≤ (pathSegments r.path).length
              ∧ lowerStr ((pathSegments r.path).headD []) = toL "en-gb"
              ∧ (pathSegments r.path).getD 1 [] = toL "lounges")
          ∨ (4 ≤ (pathSegments r.path).length
              ∧ (pathSegments r.path).headD [] = toL "lounges"))))
    ∧ is_lounge_detail_url (toL "https://my.prioritypass.com/lounges/usa/atl") = .ok false
    ∧ is_lounge_detail_url (toL "https://my.prioritypass.com/lounges/usa/atl/club-x") = .ok true
    ∧ is_lounge_detail_url (toL "https://my.prioritypass.com/en-GB/lounges/usa/atl") = .ok false
    ∧ is_lounge_detail_url (toL "https://my.prioritypass.com/en-GB/lounges/usa/atl/club-x")
        = .ok true := by
  refine ⟨?_, by decide, by decide, by decide, by decide⟩
  intro u r h
  by_cases hu : u = []
  · subst hu
    have h0 : urlparseE ([] : Str) = .ok ⟨[], [], [], [], [], []⟩ := by decide
    rw [h0] at h
    have hr := Except.ok.inj h
    rw [← hr]
    decide
  · rw [is_lounge_detail_url, if_neg hu, h, exc_bind_ok]
    by_cases c1 : 5 ≤ (pathSegments r.path).length
        ∧ lowerStr ((pathSegments r.path).headD []) = toL "en-gb"
        ∧ (pathSegments r.path).getD 1 [] = toL "lounges"
    · rw [if_pos c1, decide_eq_true (Or.inl c1)]
    · rw [if_neg c1]
      by_cases c2 : 4 ≤ (pathSegments r.path).length
          ∧ (pathSegments r.path).headD [] = toL "lounges"
      · rw [if_pos c2, decide_eq_true (Or.inr c2)]
      · rw [if_neg c2, decide_eq_false (by tauto)]

/-- Witness for `is_detail_url_shape`: the general conjunct applied to the
canonical 5-segment prefixed detail URL. -/
theorem is_detail_url_shape_witness :
    is_lounge_detail_url (toL "/en-GB/lounges/usa/atl/club-x")
      = .ok (decide ((5 ≤ (pathSegments (toL "/en-GB/lounges/usa/atl/club-x")).length
            ∧ lowerStr ((pathSegments (toL "/en-GB/lounges/usa/atl/club-x")).headD [])
                = toL "en-gb"
            ∧ (pathSegments (toL "/en-GB/lounges/usa/atl/club-x")).getD 1 [] = toL "lounges")
        ∨ (4 ≤ (pathSegments (toL "/en-GB/lounges/usa/atl/club-x")).length
            ∧ (pathSegments (toL "/en-GB/lounges/usa/atl/club-x")).headD [] = toL "lounges"))) :=
  is_detail_url_shape.1 (toL "/en-GB/lounges/usa/atl/club-x")
    ⟨[], [], toL "/en-GB/lounges/usa/atl/club-x", [], [], []⟩ (by decide)

/-! ## Claim C10: no recovery for short originals -/

/-- Claim C10: `try_recover_detail_url_from_redirect` returns `none` whenever
the original URL's path has fewer than 5 non-empty segments, whatever the
redirect target; hence an unprefixed 4-segment detail URL — classified as a
valid detail URL — can never be recovered from a redirect. -/
theorem recover_none_for_short_original :
    (∀ (o r : Str) (po pr : ParseResult),
        urlparseE o = .ok po → urlparseE r = .ok pr →
        (pathSegments po.path).length < 5 →
        try_recover_detail_url_from_redirect o r = .ok none)
    ∧ is_lounge_detail_url (toL "https://my.prioritypass.com/lounges/usa/atl/club-x")
        = .ok true
    ∧ (∀ (r : Str) (pr : ParseResult), urlparseE r = .ok pr →
        try_recover_detail_url_from_redirect
          (toL "https://my.prioritypass.com/lounges/usa/atl/club-x") r = .ok none) := by
  have hgen : ∀ (o r : Str) (po pr : ParseResult),
      urlparseE o = .ok po → urlparseE r = .ok pr →
      (pathSegments po.path).length < 5 →
      try_recover_detail_url_from_redirect o r = .ok none := by
    intro o r po pr hpo hpr hlen
    rw [try_recover_detail_url_from_redirect, hpo, exc_bind_ok, hpr, exc_bind_ok,
      if_pos hlen]
  refine ⟨hgen, by decide, ?_⟩
  intro r pr hpr
  apply hgen _ _ ⟨toL "https", toL "my.prioritypass.com", toL "/lounges/usa/atl/club-x",
    [], [], []⟩ pr (by decide) hpr
  decide

/-- Witness for `recover_none_for_short_original`: the 4-segment original of
the claim against the canonical airport-page redirect target. -/
theorem recover_none_for_short_original_witness :
    try_recover_detail_url_from_redirect
        (toL "https://my.prioritypass.com/lounges/usa/atl/club-x")
        (toL "/en-GB/lounges/united-states-of-america/hartsfield-jackson-atlanta-international")
      = .ok none :=
  recover_none_for_short_original.2.2
    (toL "/en-GB/lounges/united-states-of-america/hartsfield-jackson-atlanta-international")
    ⟨[], [], toL "/en-GB/lounges/united-states-of-america/hartsfield-jackson-atlanta-international",
      [], [], []⟩ (by decide)

/-! ## Claim C7: the validation verdict -/

/-- The not-ok condition exactly as claim C7 words it (spec-side definition,
for comparison with `check_url_ok`): final URL not a detail page, or failing
status, or the body's opening segment matches a not-found marker while not
also containing a lounge marker. -/
def spec_not_ok_verdict (fetch : FetchResult) (finalIsDetail : Bool) : Bool :=
  let head := lowerStr (fetch.text.take 2500)
  !finalIsDetail || decide (400 ≤ fetch.statusCode)
    || ((containsSub (toL "page not found") head || containsSub (toL "404") head)
        && !containsSub (toL "lounge") head)

/-- Claim C7 (amended): given the classifications of the input and final URLs,
`check_url_ok` returns the verdict
`d0 && d1 && status < 400 && no "page not found" marker && not ("404" without "lounge")`
with the final URL as resolved URL (the input URL when the pre-check on the
input already failed); and the verdict is not-ok exactly when the input or
final URL is not a detail page, the status is ≥ 400, the head contains
`page not found` (regardless of any lounge marker), or contains `404` without
`lounge`. -/
theorem check_url_verdict_characterization :
    ∀ (fetch : FetchResult) (url : Str) (d0 d1 : Bool),
      is_lounge_detail_url url = .ok d0 →
      is_lounge_detail_url fetch.finalUrl = .ok d1 →
      (check_url_ok fetch url =
        .ok (d0 && d1 && decide (fetch.statusCode < 400)
              && !(containsSub (toL "page not found") (lowerStr (fetch.text.take 2500))
                || (containsSub (toL "404") (lowerStr (fetch.text.take 2500))
                    && !containsSub (toL "lounge") (lowerStr (fetch.text.take 2500)))),
          if d0 then fetch.finalUrl else url))
      ∧ ((d0 && d1 && decide (fetch.statusCode < 400)
              && !(containsSub (toL "page not found") (lowerStr (fetch.text.take 2500))
                || (containsSub (toL "404") (lowerStr (fetch.text.take 2500))
                    && !containsSub (toL "lounge") (lowerStr (fetch.text.take 2500))))) = false
          ↔ (d0 = false ∨ d1 = false ∨ 400 ≤ fetch.statusCode
              ∨ containsSub (toL "page not found") (lowerStr (fetch.text.take 2500)) = true
              ∨ (containsSub (toL "404") (lowerStr (fetch.text.take 2500)) = true
                  ∧ containsSub (toL "lounge") (lowerStr (fetch.text.take 2500)) = false))) := by
  intro fetch url d0 d1 h0 h1
  constructor
  · rw [check_url_ok, h0, exc_bind_ok]
    cases d0 with
    | false => rfl
    | true =>
      rw [if_neg (by decide), h1, exc_bind_ok]
      cases d1 with
      | false => rfl
      | true =>
        rw [if_neg (by decide)]
        simp only [Bool.true_and]
        rw [if_pos trivial]
  · cases d0 with
    | false => simp
    | true =>
      cases d1 with
      | false => simp
      | true =>
        by_cases hst : fetch.statusCode < 400
        · cases hpn : containsSub (toL "page not found") (lowerStr (fetch.text.take 2500)) with
          | true => simp [hpn, hst]
          | false =>
            cases h404 : containsSub (toL "404") (lowerStr (fetch.text.take 2500)) with
            | false => simp [hpn, h404, hst]
            | true =>
              cases hlg : containsSub (toL "lounge") (lowerStr (fetch.text.take 2500)) with
              | false => simp [hpn, h404, hlg, hst]
              | true => simp [hpn, h404, hlg, hst]
        · simp [hst]
          omega

/-- Witness for `check_url_verdict_characterization`: a detail URL whose fetch
resolves to itself with status 200 and a clean body is the ok verdict. -/
theorem check_url_verdict_characterization_witness :
    (check_url_ok
        ⟨toL "https://my.prioritypass.com/lounges/usa/atl/club-x", 200, toL "A lounge page"⟩
        (toL "https://my.prioritypass.com/lounges/usa/atl/club-x") =
      .ok (true && true && decide ((200 : Nat) < 400)
            && !(containsSub (toL "page not found") (lowerStr ((toL "A lounge page").take 2500))
              || (containsSub (toL "404") (lowerStr ((toL "A lounge page").take 2500))
                  && !containsSub (toL "lounge") (lowerStr ((toL "A lounge page").take 2500)))),
        if true then toL "https://my.prioritypass.com/lounges/usa/atl/club-x"
        else toL "https://my.prioritypass.com/lounges/usa/atl/club-x")) :=
  (check_url_verdict_characterization
    ⟨toL "https://my.prioritypass.com/lounges/usa/atl/club-x", 200, toL "A lounge page"⟩
    (toL "https://my.prioritypass.com/lounges/usa/atl/club-x") true true
    (by decide) (by decide)).1

/-- Counterexample to claim C7 as stated: a body whose opening segment reads
`page not found lounge` does contain a not-found marker *and* a lounge marker,
so the claim's verdict is ok — but the code flags `page not found`
unconditionally and returns not-ok. -/
theorem check_url_claim_counterexample :
    check_url_ok
        ⟨toL "https://my.prioritypass.com/lounges/usa/atl/club-x", 200,
          toL "page not found lounge"⟩
        (toL "https://my.prioritypass.com/lounges/usa/atl/club-x")
      = .ok (false, toL "https://my.prioritypass.com/lounges/usa/atl/club-x")
    ∧ spec_not_ok_verdict
        ⟨toL "https://my.prioritypass.com/lounges/usa/atl/club-x", 200,
          toL "page not found lounge"⟩ true = false
    ∧ is_lounge_detail_url (toL "https://my.prioritypass.com/lounges/usa/atl/club-x")
        = .ok true := by
  refine ⟨by decide, by decide, by decide⟩

/-! ## Lemmas on split/join of path segments -/

theorem headD_append_left {α : Type} (a b : List α) (d : α) (h : a ≠ []) :
    (a ++ b).headD d = a.headD d := by
  cases a with
  | nil => exact absurd rfl h
  | cons x t => rfl

theorem splitOnChar_single {sep : Char} :
    ∀ s : Str, sep ∉ s → splitOnChar sep s = [s] := by
  intro s
  induction s with
  | nil => intro _; rfl
  | cons c t ih =>
    intro h
    have hc : ¬ c = sep := fun hc => h (by rw [hc]; exact List.mem_cons_self sep t)
    rw [splitOnChar]
    simp only [if_neg hc, ih (fun hm => h (List.mem_cons_of_mem c hm))]

theorem splitOnChar_append_sep {sep : Char} :
    ∀ (x t : Str), sep ∉ x →
      splitOnChar sep (x ++ sep :: t) = x :: splitOnChar sep t := by
  intro x
  induction x with
  | nil =>
    intro t _
    rw [List.nil_append, splitOnChar, if_pos rfl]
  | cons c y ih =>
    intro t h
    have hc : ¬ c = sep := fun hc => h (by rw [hc]; exact List.mem_cons_self sep y)
    rw [List.cons_append, splitOnChar]
    simp only [if_neg hc, ih t (fun hm => h (List.mem_cons_of_mem c hm))]

theorem splitOnChar_join {sep : Char} :
    ∀ parts : List Str, parts ≠ [] → (∀ s ∈ parts, sep ∉ s) →
      splitOnChar sep (joinWith sep parts) = parts := by
  intro parts
  induction parts with
  | nil => intro h _; exact absurd rfl h
  | cons x rest ih =>
    intro _ hall
    cases rest with
    | nil => exact splitOnChar_single x (hall x (List.mem_cons_self x []))
    | cons y t =>
      rw [joinWith, splitOnChar_append_sep x _ (hall x (List.mem_cons_self x _))]
      · rw [ih (by simp) (fun s hs => hall s (List.mem_cons_of_mem x hs))]
      · exact List.cons_ne_nil y t

theorem joinWith_ne_nil {sep : Char} :
    ∀ parts : List Str, parts ≠ [] → (∀ s ∈ parts, s ≠ []) → joinWith sep parts ≠ [] := by
  intro parts
  cases parts with
  | nil => intro h _; exact absurd rfl h
  | cons x rest =>
    intro _ hall
    cases rest with
    | nil =>
      rw [joinWith]
      exact hall x (List.mem_cons_self x [])
    | cons y t =>
      rw [joinWith]
      · intro hcon
        rcases List.append_eq_nil.mp hcon with ⟨h1, -⟩
        exact hall x (List.mem_cons_self x _) h1
      · exact List.cons_ne_nil y t

theorem joinWith_headD {sep : Char} :
    ∀ (parts : List Str) (d : Char), parts ≠ [] → (∀ s ∈ parts, s ≠ []) →
      (joinWith sep parts).headD d = (parts.headD []).headD d := by
  intro parts d
  cases parts with
  | nil => intro h _; exact absurd rfl h
  | cons x rest =>
    intro _ hall
    cases rest with
    | nil => rw [joinWith, List.headD_cons]
    | cons y t =>
      rw [joinWith]
      · rw [List.headD_cons, headD_append_left x _ d (hall x (List.mem_cons_self x _))]
      · exact List.cons_ne_nil y t

theorem joinWith_reverse_headD {sep : Char} :
    ∀ (parts : List Str) (d : Char), parts ≠ [] → (∀ s ∈ parts, s ≠ []) →
      (joinWith sep parts).reverse.headD d = ((parts.reverse.headD []).reverse).headD d := by
  intro parts
  induction parts with
  | nil => intro d h _; exact absurd rfl h
  | cons x rest ih =>
    intro d _ hall
    cases rest with
    | nil =>
      rw [joinWith]
      rfl
    | cons y t =>
      rw [joinWith]
      · have hjoin_ne : joinWith sep (y :: t) ≠ [] :=
          joinWith_ne_nil _ (by simp) (fun s hs => hall s (List.mem_cons_of_mem x hs))
        have hrev_ne : (joinWith sep (y :: t)).reverse ≠ [] := by
          intro hcon
          exact hjoin_ne (by simpa using congrArg List.reverse hcon)
        rw [List.reverse_append, List.reverse_cons, List.append_assoc,
          headD_append_left _ _ d hrev_ne,
          ih d (by simp) (fun s hs => hall s (List.mem_cons_of_mem x hs))]
        have hyt : (y :: t).reverse ≠ [] := by simp
        rw [show (x :: y :: t).reverse = (y :: t).reverse ++ [x] from List.reverse_cons x (y :: t),
          headD_append_left _ _ [] hyt]
      · exact List.cons_ne_nil y t

theorem stripChar_eq_self (c : Char) (s : Str)
    (h1 : s = [] ∨ ¬ s.headD c = c)
    (h2 : s = [] ∨ ¬ s.reverse.headD c = c) : stripChar c s = s := by
  rcases h1 with rfl | h1
  · rfl
  · have hdrop : s.dropWhile (· = c) = s := by
      cases s with
      | nil => rfl
      | cons a t =>
        rw [List.dropWhile_cons]
        simp only [List.headD_cons] at h1
        rw [if_neg (by simpa using h1)]
    rw [stripChar, hdrop]
    have hdrop2 : s.reverse.dropWhile (· = c) = s.reverse := by
      rcases h2 with rfl | h2
      · rfl
      · cases hs : s.reverse with
        | nil => rfl
        | cons a t =>
          rw [List.dropWhile_cons]
          rw [hs] at h2
          simp only [List.headD_cons] at h2
          rw [if_neg (by simpa using h2)]
    rw [hdrop2, List.reverse_reverse]

theorem headD_mem {α : Type} (l : List α) (d : α) (h : l ≠ []) : l.headD d ∈ l := by
  cases l with
  | nil => exact absurd rfl h
  | cons x t => exact List.mem_cons_self x t

theorem pathSegments_join (parts : List Str)
    (hne : parts ≠ [])
    (hnn : ∀ s ∈ parts, s ≠ [])
    (hns : ∀ s ∈ parts, '/' ∉ s) :
    pathSegments ('/' :: joinWith '/' parts) = parts := by
  have hjoin_ne : joinWith '/' parts ≠ [] := joinWith_ne_nil parts hne hnn
  have hhead : ¬ (joinWith '/' parts).headD '/' = '/' := by
    rw [joinWith_headD parts '/' hne hnn]
    have hmem := headD_mem parts [] hne
    have hpne : parts.headD [] ≠ [] := hnn _ hmem
    have hpns : '/' ∉ parts.headD [] := hns _ hmem
    intro hcon
    exact hpns (hcon ▸ headD_mem (parts.headD []) '/' hpne)
  have hlast : ¬ (joinWith '/' parts).reverse.headD '/' = '/' := by
    rw [joinWith_reverse_headD parts '/' hne hnn]
    have hrevne : parts.reverse ≠ [] := by
      intro hcon
      exact hne (by simpa using congrArg List.reverse hcon)
    have hmem : parts.reverse.headD [] ∈ parts := by
      have := headD_mem parts.reverse [] hrevne
      exact (List.mem_reverse).mp this
    have hpne : parts.reverse.headD [] ≠ [] := hnn _ hmem
    have hpns : '/' ∉ parts.reverse.headD [] := hns _ hmem
    have hrne : (parts.reverse.headD []).reverse ≠ [] := by
      intro hcon
      exact hpne (by simpa using congrArg List.reverse hcon)
    intro hcon
    have hm : '/' ∈ (parts.reverse.headD []).reverse :=
      hcon ▸ headD_mem (parts.reverse.headD []).reverse '/' hrne
    exact hpns ((List.mem_reverse).mp hm)
  have hstrip : stripChar '/' ('/' :: joinWith '/' parts) = joinWith '/' parts := by
    rw [stripChar, List.dropWhile_cons]
    rw [if_pos (by decide : decide ('/' = '/') = true)]
    have hdrop1 : (joinWith '/' parts).dropWhile (· = '/') = joinWith '/' parts := by
      cases hj : joinWith '/' parts with
      | nil => rfl
      | cons a u =>
        rw [List.dropWhile_cons]
        have : ¬ a = '/' := by
          rw [hj, List.headD_cons] at hhead
          exact hhead
        rw [if_neg (by simpa using this)]
    have hdrop2 : (joinWith '/' parts).reverse.dropWhile (· = '/')
        = (joinWith '/' parts).reverse := by
      cases hj : (joinWith '/' parts).reverse with
      | nil => rfl
      | cons a u =>
        rw [List.dropWhile_cons]
        have : ¬ a = '/' := by
          rw [hj, List.headD_cons] at hlast
          exact hlast
        rw [if_neg (by simpa using this)]
    rw [hdrop1, hdrop2, List.reverse_reverse]
  rw [pathSegments, hstrip, splitOnChar_join parts hne hns]
  apply List.filter_eq_self.mpr
  intro s hs
  simpa using hnn s hs

theorem mem_splitOnChar_piece {sep : Char} :
    ∀ (s : Str) (piece : Str), piece ∈ splitOnChar sep s → sep ∉ piece ∧ ∀ c ∈ piece, c ∈ s := by
  intro s
  induction s with
  | nil =>
    intro piece hp
    rw [splitOnChar] at hp
    rcases List.mem_cons.mp hp with rfl | hp
    · exact ⟨List.not_mem_nil sep, fun c hc => absurd hc (List.not_mem_nil c)⟩
    · exact absurd hp (List.not_mem_nil piece)
  | cons a t ih =>
    intro piece hp
    rw [splitOnChar] at hp
    by_cases ha : a = sep
    · rw [if_pos ha] at hp
      rcases List.mem_cons.mp hp with rfl | hp
      · exact ⟨List.not_mem_nil sep, fun c hc => absurd hc (List.not_mem_nil c)⟩
      · rcases ih piece hp with ⟨h1, h2⟩
        exact ⟨h1, fun c hc => List.mem_cons_of_mem a (h2 c hc)⟩
    · rw [if_neg ha] at hp
      cases hsp : splitOnChar sep t with
      | nil =>
        rw [hsp] at hp
        rcases List.mem_cons.mp hp with rfl | hp
        · constructor
          · intro hm
            rcases List.mem_cons.mp hm with heq | hm
            · exact ha heq.symm
            · exact absurd hm (List.not_mem_nil sep)
          · intro c hc
            rcases List.mem_cons.mp hc with rfl | hc
            · exact List.mem_cons_self c t
            · exact absurd hc (List.not_mem_nil c)
        · exact absurd hp (List.not_mem_nil piece)
      | cons h0 t0 =>
        rw [hsp] at hp
        rcases List.mem_cons.mp hp with rfl | hp
        · have hh0 : h0 ∈ splitOnChar sep t := by rw [hsp]; exact List.mem_cons_self h0 t0
          rcases ih h0 hh0 with ⟨h1, h2⟩
          constructor
          · intro hm
            rcases List.mem_cons.mp hm with heq | hm
            · exact ha heq.symm
            · exact h1 hm
          · intro c hc
            rcases List.mem_cons.mp hc with rfl | hc
            · exact List.mem_cons_self c t
            · exact List.mem_cons_of_mem a (h2 c hc)
        · have hh0 : piece ∈ splitOnChar sep t := by
            rw [hsp]
            exact List.mem_cons_of_mem h0 hp
          rcases ih piece hh0 with ⟨h1, h2⟩
          exact ⟨h1, fun c hc => List.mem_cons_of_mem a (h2 c hc)⟩

theorem mem_stripChar {c0 : Char} (s : Str) : ∀ c ∈ stripChar c0 s, c ∈ s := by
  intro c hc
  rw [stripChar] at hc
  rw [List.mem_reverse] at hc
  have h1 := (List.dropWhile_sublist (· = c0)).subset hc
  rw [List.mem_reverse] at h1
  exact (List.dropWhile_sublist (· = c0)).subset h1

theorem pathSegments_piece_facts (p : Str) :
    ∀ piece ∈ pathSegments p, piece ≠ [] ∧ '/' ∉ piece ∧ ∀ c ∈ piece, c ∈ p := by
  intro piece hp
  rw [pathSegments] at hp
  rcases List.mem_filter.mp hp with ⟨hmem, hne⟩
  rcases mem_splitOnChar_piece _ piece hmem with ⟨h1, h2⟩
  exact ⟨by simpa using hne, h1, fun c hc => mem_stripChar p c (h2 c hc)⟩

/-! ## Claim C2: the duplicated-segment repairer -/

theorem splitSchemeAux_snd_subset :
    ∀ (s acc a b : Str), splitSchemeAux acc s = some (a, b) → ∀ c ∈ b, c ∈ s := by
  intro s
  induction s with
  | nil => intro acc a b h; exact absurd h (by rw [splitSchemeAux]; exact Option.noConfusion)
  | cons x t ih =>
    intro acc a b h c hc
    rw [splitSchemeAux] at h
    by_cases hx : x = ':'
    · rw [if_pos hx] at h
      cases h
      exact List.mem_cons_of_mem x hc
    · rw [if_neg hx] at h
      by_cases hsc : schemeChar x = true
      · rw [if_pos hsc] at h
        exact List.mem_cons_of_mem x (ih (x :: acc) a b h c hc)
      · rw [if_neg hsc] at h
        exact absurd h Option.noConfusion

theorem splitScheme_snd_subset (s : Str) : ∀ c ∈ (splitScheme s).2, c ∈ s := by
  intro c hc
  cases s with
  | nil => exact hc
  | cons x t =>
    rw [splitScheme] at hc
    by_cases hx : x.isAlpha = true
    · rw [if_pos hx] at hc
      cases haux : splitSchemeAux [] (x :: t) with
      | none => rw [haux] at hc; exact hc
      | some p =>
        rw [haux] at hc
        exact splitSchemeAux_snd_subset (x :: t) [] p.1 p.2 (by rw [haux]) c hc
    · rw [if_neg hx] at hc
      exact hc

theorem mem_cleanUrl_subset (s : Str) : ∀ c ∈ cleanUrl s, c ∈ s := by
  intro c hc
  rw [cleanUrl] at hc
  have h1 := List.mem_of_mem_filter hc
  exact (List.dropWhile_sublist c0ControlOrSpace).subset h1

theorem urlsplitE_ok_of_no_brackets (u : Str) (h1 : '[' ∉ u) (h2 : ']' ∉ u)
    (_h3 : pyIsAscii u = true) : ∃ r, urlsplitE u = .ok r := by
  rw [urlsplitE]
  by_cases hss : strStarts (toL "//") (splitScheme (cleanUrl u)).2 = true
  · rw [if_pos hss]
    have hsub : ∀ c ∈ ((splitScheme (cleanUrl u)).2.drop 2).takeWhile
        (fun c => !netlocDelim c), c ∈ u := by
      intro c hc
      have s1 := (List.takeWhile_sublist (fun c => !netlocDelim c)).subset hc
      have s2 := List.mem_of_mem_drop s1
      have s3 := splitScheme_snd_subset (cleanUrl u) c s2
      exact mem_cleanUrl_subset u c s3
    rw [if_neg (show ¬ ('[' ∈ ((splitScheme (cleanUrl u)).2.drop 2).takeWhile
        (fun c => !netlocDelim c) ∨ ']' ∈ ((splitScheme (cleanUrl u)).2.drop 2).takeWhile
        (fun c => !netlocDelim c)) from by
      rintro (hm | hm)
      · exact h1 (hsub _ hm)
      · exact h2 (hsub _ hm))]
    exact ⟨_, rfl⟩
  · rw [if_neg hss]
    exact ⟨_, rfl⟩

theorem urlparseE_ok_of_no_brackets (u : Str) (h1 : '[' ∉ u) (h2 : ']' ∉ u)
    (h3 : pyIsAscii u = true) : ∃ r, urlparseE u = .ok r := by
  rcases urlsplitE_ok_of_no_brackets u h1 h2 h3 with ⟨r, hr⟩
  rw [urlparseE, hr, exc_bind_ok]
  by_cases hc : r.scheme ∈ usesParams ∧ ';' ∈ r.path
  · rw [if_pos hc]
    exact ⟨_, rfl⟩
  · rw [if_neg hc]
    exact ⟨_, rfl⟩

/-- Claim C2 (amended): the repairer returns its input unchanged whenever the
path matches neither trigger shape; on an unprefixed match (≥ 5 segments led
by the listing keyword) and on a prefixed match (≥ 6 segments led by the
language code and the listing keyword) it reassembles the URL on the parsed
(or default) scheme and host with exactly the segment after the country
segment removed; and it never raises on ASCII inputs without square brackets
(on a bracketed authority, `urlparse`'s `ValueError` propagates — see the
counterexample — and `_checknetloc`'s NFKC check, outside this model, can
raise on some non-ASCII bracket-free authorities such as `"//℀x"`). -/
theorem repair_segment_characterization :
    (∀ (u : Str) (r : ParseResult), urlparseE u = .ok r →
      ¬ (6 ≤ (pathSegments r.path).length
          ∧ lowerStr ((pathSegments r.path).headD []) = toL "en-gb"
          ∧ (pathSegments r.path).getD 1 [] = toL "lounges") →
      ¬ (5 ≤ (pathSegments r.path).length
          ∧ (pathSegments r.path).headD [] = toL "lounges") →
      repair_duplicated_airport_segment u = .ok u)
    ∧ (∀ (u : Str) (r : ParseResult), urlparseE u = .ok r →
        (5 ≤ (pathSegments r.path).length ∧ (pathSegments r.path).headD [] = toL "lounges") →
        repair_duplicated_airport_segment u
          = .ok (urlunparseStr (schemeOrHttps r.scheme) (netlocOrMyPP r.netloc)
              ('/' :: joinWith '/'
                ((pathSegments r.path).take 2 ++ (pathSegments r.path).drop 3)) [] [] [])
          ∧ pathSegments ('/' :: joinWith '/'
              ((pathSegments r.path).take 2 ++ (pathSegments r.path).drop 3))
            = (pathSegments r.path).take 2 ++ (pathSegments r.path).drop 3)
    ∧ (∀ (u : Str) (r : ParseResult), urlparseE u = .ok r →
        (6 ≤ (pathSegments r.path).length
          ∧ lowerStr ((pathSegments r.path).headD []) = toL "en-gb"
          ∧ (pathSegments r.path).getD 1 [] = toL "lounges") →
        repair_duplicated_airport_segment u
          = .ok (urlunparseStr (schemeOrHttps r.scheme) (netlocOrMyPP r.netloc)
              ('/' :: joinWith '/'
                ((pathSegments r.path).take 3 ++ (pathSegments r.path).drop 4)) [] [] [])
          ∧ pathSegments ('/' :: joinWith '/'
              ((pathSegments r.path).take 3 ++ (pathSegments r.path).drop 4))
            = (pathSegments r.path).take 3 ++ (pathSegments r.path).drop 4)
    ∧ (∀ u : Str, '[' ∉ u → ']' ∉ u → pyIsAscii u = true →
        ∃ v, repair_duplicated_airport_segment u = .ok v)
    ∧ repair_duplicated_airport_segment (toL "/lounges/usa/wrong-airport/correct-airport/club-atl")
        = .ok (toL "https://my.prioritypass.com/lounges/usa/correct-airport/club-atl") := by
  have hsegfacts : ∀ (path : Str) (ps : List Str), ps = pathSegments path →
      ∀ (k j : Nat), 0 < (ps.take k).length →
      pathSegments ('/' :: joinWith '/' (ps.take k ++ ps.drop j)) = ps.take k ++ ps.drop j := by
    intro path ps hps k j hlen
    apply pathSegments_join
    · intro hcon
      rcases List.append_eq_nil.mp hcon with ⟨h1, -⟩
      rw [h1] at hlen
      simp at hlen
    · intro s hs
      rcases List.mem_append.mp hs with hm | hm
      · exact (pathSegments_piece_facts path s (hps ▸ List.mem_of_mem_take hm)).1
      · exact (pathSegments_piece_facts path s (hps ▸ List.mem_of_mem_drop hm)).1
    · intro s hs
      rcases List.mem_append.mp hs with hm | hm
      · exact (pathSegments_piece_facts path s (hps ▸ List.mem_of_mem_take hm)).2.1
      · exact (pathSegments_piece_facts path s (hps ▸ List.mem_of_mem_drop hm)).2.1
  refine ⟨?_, ?_, ?_, ?_, by decide⟩
  · intro u r h hc6 hc5
    rw [repair_duplicated_airport_segment, h, exc_bind_ok, if_neg hc6, if_neg hc5]
  · intro u r h hc5
    have hc6 : ¬ (6 ≤ (pathSegments r.path).length
        ∧ lowerStr ((pathSegments r.path).headD []) = toL "en-gb"
        ∧ (pathSegments r.path).getD 1 [] = toL "lounges") := by
      rintro ⟨-, h6, -⟩
      rw [hc5.2] at h6
      exact absurd h6 (by decide)
    constructor
    · rw [repair_duplicated_airport_segment, h, exc_bind_ok, if_neg hc6, if_pos hc5]
    · apply hsegfacts r.path _ rfl
      rw [List.length_take]
      omega
  · intro u r h hc6
    constructor
    · rw [repair_duplicated_airport_segment, h, exc_bind_ok, if_pos hc6]
    · apply hsegfacts r.path _ rfl
      rw [List.length_take]
      omega
  · intro u h1 h2 h3
    rcases urlparseE_ok_of_no_brackets u h1 h2 h3 with ⟨r, hr⟩
    rw [repair_duplicated_airport_segment, hr, exc_bind_ok]
    by_cases hc6 : 6 ≤ (pathSegments r.path).length
        ∧ lowerStr ((pathSegments r.path).headD []) = toL "en-gb"
        ∧ (pathSegments r.path).getD 1 [] = toL "lounges"
    · rw [if_pos hc6]
      exact ⟨_, rfl⟩
    · rw [if_neg hc6]
      by_cases hc5 : 5 ≤ (pathSegments r.path).length
          ∧ (pathSegments r.path).headD [] = toL "lounges"
      · rw [if_pos hc5]
        exact ⟨_, rfl⟩
      · rw [if_neg hc5]
        exact ⟨_, rfl⟩

/-- Witness for `repair_segment_characterization`: the spec's example path,
run through the unprefixed-match conjunct. -/
theorem repair_segment_characterization_witness :
    repair_duplicated_airport_segment (toL "/lounges/usa/wrong-airport/correct-airport/club-atl")
      = .ok (urlunparseStr
          (schemeOrHttps ([] : Str)) (netlocOrMyPP ([] : Str))
          ('/' :: joinWith '/'
            ((pathSegments (toL "/lounges/usa/wrong-airport/correct-airport/club-atl")).take 2
              ++ (pathSegments (toL "/lounges/usa/wrong-airport/correct-airport/club-atl")).drop 3))
          [] [] [])
    ∧ pathSegments ('/' :: joinWith '/'
        ((pathSegments (toL "/lounges/usa/wrong-airport/correct-airport/club-atl")).take 2
          ++ (pathSegments (toL "/lounges/usa/wrong-airport/correct-airport/club-atl")).drop 3))
      = (pathSegments (toL "/lounges/usa/wrong-airport/correct-airport/club-atl")).take 2
          ++ (pathSegments (toL "/lounges/usa/wrong-airport/correct-airport/club-atl")).drop 3 :=
  repair_segment_characterization.2.1 (toL "/lounges/usa/wrong-airport/correct-airport/club-atl")
    ⟨[], [], toL "/lounges/usa/wrong-airport/correct-airport/club-atl", [], [], []⟩
    (by decide) (by decide)

/-- Counterexample to claim C2 as stated ("never raises on any input"):
on `"//["` the bracket check of `urlparse` raises `ValueError`, which
propagates out of `repair_duplicated_airport_segment`. -/
theorem repair_raises_on_bracket :
    repair_duplicated_airport_segment (toL "//[") = .error .valueError := by decide

/-! ## Invariants of a successful parse -/

theorem getD_mem_of_lt {α : Type} (l : List α) (n : Nat) (d : α) (h : n < l.length) :
    l.getD n d ∈ l := by
  rw [List.getD_eq_getElem l d h]
  exact List.getElem_mem h

theorem mem_cleanUrl_unsafe (s : Str) : ∀ c ∈ cleanUrl s, unsafeUrlByte c = false := by
  intro c hc
  rw [cleanUrl] at hc
  have := (List.mem_filter.mp hc).2
  simpa using this

theorem urlsplitE_path_facts (u : Str) (r : SplitResult) (h : urlsplitE u = .ok r) :
    ('#' ∉ r.path) ∧ ('?' ∉ r.path) ∧ (∀ c ∈ r.path, c ∈ cleanUrl u) := by
  rw [urlsplitE] at h
  by_cases hss : strStarts (toL "//") (splitScheme (cleanUrl u)).2 = true
  · rw [if_pos hss] at h
    by_cases hbr : '[' ∈ ((splitScheme (cleanUrl u)).2.drop 2).takeWhile (fun c => !netlocDelim c)
        ∨ ']' ∈ ((splitScheme (cleanUrl u)).2.drop 2).takeWhile (fun c => !netlocDelim c)
    · rw [if_pos hbr] at h
      exact absurd h Except.noConfusion
    · rw [if_neg hbr] at h
      have hr := Except.ok.inj h
      have hpath : r.path
          = (cutFirst '?' (cutFirst '#'
              (((splitScheme (cleanUrl u)).2.drop 2).dropWhile (fun c => !netlocDelim c))).1).1 := by
        rw [← hr]
      rw [hpath]
      refine ⟨?_, cutFirst_fst_no_sep _, ?_⟩
      · intro hm
        exact @cutFirst_fst_no_sep '#' _ (mem_cutFirst_fst _ _ hm)
      · intro c hc
        have s1 := mem_cutFirst_fst _ _ hc
        have s2 := mem_cutFirst_fst _ _ s1
        have s3 := (List.dropWhile_sublist (fun c => !netlocDelim c)).subset s2
        have s4 := List.mem_of_mem_drop s3
        exact splitScheme_snd_subset (cleanUrl u) c s4
  · rw [if_neg hss] at h
    have hr := Except.ok.inj h
    have hpath : r.path
        = (cutFirst '?' (cutFirst '#' (splitScheme (cleanUrl u)).2).1).1 := by
      rw [← hr]
    rw [hpath]
    refine ⟨?_, cutFirst_fst_no_sep _, ?_⟩
    · intro hm
      exact @cutFirst_fst_no_sep '#' _ (mem_cutFirst_fst _ _ hm)
    · intro c hc
      have s1 := mem_cutFirst_fst _ _ hc
      have s2 := mem_cutFirst_fst _ _ s1
      exact splitScheme_snd_subset (cleanUrl u) c s2

theorem mem_lastSegment (p : Str) : ∀ c ∈ lastSegment p, c ∈ p := by
  intro c hc
  rw [lastSegment, List.mem_reverse] at hc
  have := (List.takeWhile_sublist (fun c => c ≠ '/')).subset hc
  rw [List.mem_reverse] at this
  exact this

theorem mem_splitParamsPath_fst (p : Str) : ∀ c ∈ (splitParamsPath p).1, c ∈ p := by
  intro c hc
  rw [splitParamsPath] at hc
  by_cases hsl : '/' ∈ p
  · rw [if_pos hsl] at hc
    cases hsp : splitOnFirst ';' (lastSegment p) with
    | none =>
      rw [hsp] at hc
      exact hc
    | some q =>
      rw [hsp] at hc
      rcases List.mem_append.mp hc with hm | hm
      · exact List.mem_of_mem_take hm
      · exact mem_lastSegment p c (mem_splitOnFirst_fst _ q.1 q.2 hsp c hm)
  · rw [if_neg hsl] at hc
    cases hsp : splitOnFirst ';' p with
    | none =>
      rw [hsp] at hc
      exact hc
    | some q =>
      rw [hsp] at hc
      exact mem_splitOnFirst_fst _ q.1 q.2 hsp c hc

theorem urlparseE_path_facts (u : Str) (r : ParseResult) (h : urlparseE u = .ok r) :
    ('#' ∉ r.path) ∧ ('?' ∉ r.path) ∧ (∀ c ∈ r.path, c ∈ cleanUrl u) := by
  rw [urlparseE] at h
  cases hsp : urlsplitE u with
  | error e =>
    rw [hsp] at h
    exact absurd h Except.noConfusion
  | ok s =>
    rw [hsp, exc_bind_ok] at h
    rcases urlsplitE_path_facts u s hsp with ⟨h1, h2, h3⟩
    by_cases hc : s.scheme ∈ usesParams ∧ ';' ∈ s.path
    · rw [if_pos hc] at h
      have hr := Except.ok.inj h
      have hpath : r.path = (splitParamsPath s.path).1 := by rw [← hr]
      rw [hpath]
      refine ⟨?_, ?_, ?_⟩
      · intro hm
        exact h1 (mem_splitParamsPath_fst s.path '#' hm)
      · intro hm
        exact h2 (mem_splitParamsPath_fst s.path '?' hm)
      · intro c hc2
        exact h3 c (mem_splitParamsPath_fst s.path c hc2)
    · rw [if_neg hc] at h
      have hr := Except.ok.inj h
      have hpath : r.path = s.path := by rw [← hr]
      rw [hpath]
      exact ⟨h1, h2, h3⟩

/-! ## Claim C3: redirect recovery -/

theorem pstrip_eq_self (s : Str)
    (h1 : s = [] ∨ pyIsSpace (s.headD ' ') = false)
    (h2 : s = [] ∨ pyIsSpace (s.reverse.headD ' ') = false) : pstrip s = s := by
  rcases h1 with rfl | h1
  · rfl
  · have hdrop : s.dropWhile pyIsSpace = s := by
      cases s with
      | nil => rfl
      | cons a t =>
        rw [List.dropWhile_cons]
        simp only [List.headD_cons] at h1
        rw [h1]
        rw [if_neg Bool.false_ne_true]
    rw [pstrip, hdrop]
    have hdrop2 : s.reverse.dropWhile pyIsSpace = s.reverse := by
      rcases h2 with rfl | h2
      · rfl
      · cases hs : s.reverse with
        | nil => rfl
        | cons a t =>
          rw [List.dropWhile_cons]
          rw [hs] at h2
          simp only [List.headD_cons] at h2
          rw [h2]
          rw [if_neg Bool.false_ne_true]
    rw [hdrop2, List.reverse_reverse]

theorem reverse_headD_append (A s : Str) (d : Char) (h : s ≠ []) :
    (A ++ s).reverse.headD d = s.reverse.headD d := by
  rw [List.reverse_append]
  apply headD_append_left
  intro hcon
  exact h (by simpa using congrArg List.reverse hcon)

theorem urlsplitE_relative (p : Str)
    (hhead : (p.headD ' ').isAlpha = false)
    (h32 : 32 < (p.headD ' ').toNat)
    (hss : strStarts (toL "//") p = false)
    (ht : ∀ c ∈ p, unsafeUrlByte c = false)
    (hpf : '#' ∉ p) (hpq : '?' ∉ p) :
    urlsplitE p = .ok ⟨[], [], p, [], []⟩ := by
  have hclean : cleanUrl p = p := by
    apply cleanUrl_eq_self
    · right
      exact c0_eq_false_of_gt _ h32
    · exact ht
  have hscheme : splitScheme p = ([], p) := splitScheme_id_of_not_alpha p (Or.inr hhead)
  rw [urlsplitE, hclean, hscheme]
  simp only
  rw [if_neg (by rw [hss]; exact Bool.false_ne_true)]
  rw [cutFirst_no_sep p hpf]
  simp only
  rw [cutFirst_no_sep p hpq]

theorem urlparseE_relative (p : Str)
    (hhead : (p.headD ' ').isAlpha = false)
    (h32 : 32 < (p.headD ' ').toNat)
    (hss : strStarts (toL "//") p = false)
    (ht : ∀ c ∈ p, unsafeUrlByte c = false)
    (hpf : '#' ∉ p) (hpq : '?' ∉ p) (hps : ';' ∉ p) :
    urlparseE p = .ok ⟨[], [], p, [], [], []⟩ := by
  rw [urlparseE, urlsplitE_relative p hhead h32 hss ht hpf hpq, exc_bind_ok]
  rw [if_neg (fun h => hps h.2)]

theorem to_my_rebuilt (c2 c3 slug : Str)
    (h2ne : c2 ≠ []) (h2sl : '/' ∉ c2) (h2f : '#' ∉ c2) (h2q : '?' ∉ c2) (h2s : ';' ∉ c2)
    (h2t : ∀ c ∈ c2, unsafeUrlByte c = false)
    (h3ne : c3 ≠ []) (h3sl : '/' ∉ c3) (h3f : '#' ∉ c3) (h3q : '?' ∉ c3) (h3s : ';' ∉ c3)
    (h3t : ∀ c ∈ c3, unsafeUrlByte c = false)
    (hsne : slug ≠ []) (hssl : '/' ∉ slug) (hsf : '#' ∉ slug) (hsq : '?' ∉ slug)
    (hsse : ';' ∉ slug)
    (hst : ∀ c ∈ slug, unsafeUrlByte c = false)
    (hsp : pyIsSpace (slug.reverse.headD ' ') = false) :
    to_my_prioritypass_url (toL "/en-GB/lounges/" ++ c2 ++ '/' :: c3 ++ '/' :: slug)
      = .ok (toL "https://my.prioritypass.com"
          ++ (toL "/en-GB/lounges/" ++ c2 ++ '/' :: c3 ++ '/' :: slug))
    ∧ is_lounge_detail_url (toL "https://my.prioritypass.com"
          ++ (toL "/en-GB/lounges/" ++ c2 ++ '/' :: c3 ++ '/' :: slug)) = .ok true := by
  have hmemf : ∀ c ∈ toL "/en-GB/lounges/" ++ c2 ++ '/' :: c3 ++ '/' :: slug,
      c ∈ toL "/en-GB/lounges/" ∨ c ∈ c2 ∨ c = '/' ∨ c ∈ c3 ∨ c ∈ slug := by
    intro c hc
    rcases List.mem_append.mp hc with hm | hm
    · rcases List.mem_append.mp hm with hm | hm
      · rcases List.mem_append.mp hm with hm | hm
        · exact Or.inl hm
        · exact Or.inr (Or.inl hm)
      · rcases List.mem_cons.mp hm with rfl | hm
        · exact Or.inr (Or.inr (Or.inl rfl))
        · exact Or.inr (Or.inr (Or.inr (Or.inl hm)))
    · rcases List.mem_cons.mp hm with rfl | hm
      · exact Or.inr (Or.inr (Or.inl rfl))
      · exact Or.inr (Or.inr (Or.inr (Or.inr hm)))
  have hconc : ∀ x ∈ toL "/en-GB/lounges/", unsafeUrlByte x = false := by decide
  have hft : ∀ c ∈ toL "/en-GB/lounges/" ++ c2 ++ '/' :: c3 ++ '/' :: slug,
      unsafeUrlByte c = false := by
    intro c hc
    rcases hmemf c hc with hm | hm | rfl | hm | hm
    · exact hconc c hm
    · exact h2t c hm
    · decide
    · exact h3t c hm
    · exact hst c hm
  have hff : '#' ∉ toL "/en-GB/lounges/" ++ c2 ++ '/' :: c3 ++ '/' :: slug := by
    intro hc
    rcases hmemf _ hc with hm | hm | he | hm | hm
    · revert hm; decide
    · exact h2f hm
    · exact absurd he (by decide)
    · exact h3f hm
    · exact hsf hm
  have hfq : '?' ∉ toL "/en-GB/lounges/" ++ c2 ++ '/' :: c3 ++ '/' :: slug := by
    intro hc
    rcases hmemf _ hc with hm | hm | he | hm | hm
    · revert hm; decide
    · exact h2q hm
    · exact absurd he (by decide)
    · exact h3q hm
    · exact hsq hm
  have hfs : ';' ∉ toL "/en-GB/lounges/" ++ c2 ++ '/' :: c3 ++ '/' :: slug := by
    intro hc
    rcases hmemf _ hc with hm | hm | he | hm | hm
    · revert hm; decide
    · exact h2s hm
    · exact absurd he (by decide)
    · exact h3s hm
    · exact hsse hm
  have hfend : (toL "/en-GB/lounges/" ++ c2 ++ '/' :: c3 ++ '/' :: slug)
      = (toL "/en-GB/lounges/" ++ c2 ++ '/' :: c3 ++ ['/']) ++ slug := by
    simp [List.append_assoc]
  have hstrip : pstrip (toL "/en-GB/lounges/" ++ c2 ++ '/' :: c3 ++ '/' :: slug)
      = toL "/en-GB/lounges/" ++ c2 ++ '/' :: c3 ++ '/' :: slug := by
    apply pstrip_eq_self
    · right
      rfl
    · right
      rw [hfend, reverse_headD_append _ slug ' ' hsne]
      exact hsp
  have hparse : urlparseE (toL "/en-GB/lounges/" ++ c2 ++ '/' :: c3 ++ '/' :: slug)
      = .ok ⟨[], [], toL "/en-GB/lounges/" ++ c2 ++ '/' :: c3 ++ '/' :: slug, [], [], []⟩ := by
    apply urlparseE_relative
    · rfl
    · show (32 : Nat) < ('/' : Char).toNat
      decide
    · rfl
    · exact hft
    · exact hff
    · exact hfq
    · exact hfs
  have hjoin : toL "/en-GB/lounges/" ++ c2 ++ '/' :: c3 ++ '/' :: slug
      = '/' :: joinWith '/' [toL "en-GB", toL "lounges", c2, c3, slug] := by
    simp [joinWith, toL]
  have hsegs : pathSegments (toL "/en-GB/lounges/" ++ c2 ++ '/' :: c3 ++ '/' :: slug)
      = [toL "en-GB", toL "lounges", c2, c3, slug] := by
    rw [hjoin]
    apply pathSegments_join
    · simp
    · intro s hs
      simp only [List.mem_cons] at hs
      rcases hs with rfl | rfl | rfl | rfl | rfl | hs
      · decide
      · decide
      · exact h2ne
      · exact h3ne
      · exact hsne
      · exact absurd hs (List.not_mem_nil s)
    · intro s hs
      simp only [List.mem_cons] at hs
      rcases hs with rfl | rfl | rfl | rfl | rfl | hs
      · decide
      · decide
      · exact h2sl
      · exact h3sl
      · exact hssl
      · exact absurd hs (List.not_mem_nil s)
  constructor
  · rw [to_my_prioritypass_url]
    rw [if_neg (show ¬ pstrip (toL "/en-GB/lounges/" ++ c2 ++ '/' :: c3 ++ '/' :: slug) = []
      from by rw [hstrip]; simp)]
    rw [hstrip, hparse, exc_bind_ok]
    simp only
    rw [if_neg (show ¬ ((⟨[], [], toL "/en-GB/lounges/" ++ c2 ++ '/' :: c3 ++ '/' :: slug,
        [], [], []⟩ : ParseResult).netloc ≠ []) from by simp)]
    rw [show ensureLeadingSlash (toL "/en-GB/lounges/" ++ c2 ++ '/' :: c3 ++ '/' :: slug)
        = toL "/en-GB/lounges/" ++ c2 ++ '/' :: c3 ++ '/' :: slug from by
      rw [ensureLeadingSlash,
        if_pos (show strStarts (toL "/")
            (toL "/en-GB/lounges/" ++ c2 ++ '/' :: c3 ++ '/' :: slug) = true by rfl)]]
    rw [show normalizeLoungesPrefix (toL "/en-GB/lounges/" ++ c2 ++ '/' :: c3 ++ '/' :: slug)
        = toL "/en-GB/lounges/" ++ c2 ++ '/' :: c3 ++ '/' :: slug from by
      rw [normalizeLoungesPrefix, if_neg (show ¬ strStarts (toL "/lounges/")
          (toL "/en-GB/lounges/" ++ c2 ++ '/' :: c3 ++ '/' :: slug) = true by
        intro hcon
        exact Bool.false_ne_true hcon)]]
    rw [urlunparseStr_canonical (toL "https") MY_PP_HOST
      (toL "/en-GB/lounges/" ++ c2 ++ '/' :: c3 ++ '/' :: slug) (by decide) (by decide) rfl]
    rfl
  · rw [is_lounge_detail_url]
    rw [if_neg (show ¬ (toL "https://my.prioritypass.com"
        ++ (toL "/en-GB/lounges/" ++ c2 ++ '/' :: c3 ++ '/' :: slug)) = []
      from by simp)]
    rw [urlparseE_myPP (toL "/en-GB/lounges/" ++ c2 ++ '/' :: c3 ++ '/' :: slug)
      hft rfl hff hfq hfs, exc_bind_ok]
    simp only [hsegs]
    rw [if_pos (show (5 ≤ ([toL "en-GB", toL "lounges", c2, c3, slug] : List Str).length
        ∧ lowerStr (([toL "en-GB", toL "lounges", c2, c3, slug] : List Str).headD [])
            = toL "en-gb"
        ∧ ([toL "en-GB", toL "lounges", c2, c3, slug] : List Str).getD 1 [] = toL "lounges")
      from ⟨by simp, rfl, rfl⟩)]

/-- Claim C3: redirect recovery combines the original URL's trailing slug with
the redirect target's country and airport segments when the redirect landed on
an airport page (language-prefixed, ≥ 4 segments), reuses the original airport
segment with the redirected country segment when the redirect landed on a
country-only page (exactly 3 segments), returns `none` when neither pattern
matches, and on the spec's example rebuilds the canonical detail URL.  The
segment-cleanliness hypotheses (`;`-free segments, slug not ending in
whitespace) exclude inputs on which the rebuilt string would be re-parsed
differently; every other fact is derived from the parses. -/
theorem recover_from_redirect_characterization :
    (∀ (o r : Str) (po pr : ParseResult),
      urlparseE o = .ok po → urlparseE r = .ok pr →
      5 ≤ (pathSegments po.path).length →
      4 ≤ (pathSegments pr.path).length →
      lowerStr ((pathSegments pr.path).headD []) = toL "en-gb" →
      (pathSegments pr.path).getD 1 [] = toL "lounges" →
      ';' ∉ (pathSegments pr.path).getD 2 [] →
      ';' ∉ (pathSegments pr.path).getD 3 [] →
      ';' ∉ (pathSegments po.path).getD ((pathSegments po.path).length - 1) [] →
      pyIsSpace (((pathSegments po.path).getD ((pathSegments po.path).length - 1)
          []).reverse.headD ' ') = false →
      try_recover_detail_url_from_redirect o r
        = .ok (some (toL "https://my.prioritypass.com"
            ++ (toL "/en-GB/lounges/" ++ (pathSegments pr.path).getD 2 []
              ++ '/' :: (pathSegments pr.path).getD 3 []
              ++ '/' :: (pathSegments po.path).getD ((pathSegments po.path).length - 1) []))))
    ∧ (∀ (o r : Str) (po pr : ParseResult),
      urlparseE o = .ok po → urlparseE r = .ok pr →
      5 ≤ (pathSegments po.path).length →
      (pathSegments pr.path).length = 3 →
      lowerStr ((pathSegments pr.path).headD []) = toL "en-gb" →
      (pathSegments pr.path).getD 1 [] = toL "lounges" →
      ';' ∉ (pathSegments pr.path).getD 2 [] →
      ';' ∉ (pathSegments po.path).getD ((pathSegments po.path).length - 2) [] →
      ';' ∉ (pathSegments po.path).getD ((pathSegments po.path).length - 1) [] →
      pyIsSpace (((pathSegments po.path).getD ((pathSegments po.path).length - 1)
          []).reverse.headD ' ') = false →
      try_recover_detail_url_from_redirect o r
        = .ok (some (toL "https://my.prioritypass.com"
            ++ (toL "/en-GB/lounges/" ++ (pathSegments pr.path).getD 2 []
              ++ '/' :: (pathSegments po.path).getD ((pathSegments po.path).length - 2) []
              ++ '/' :: (pathSegments po.path).getD ((pathSegments po.path).length - 1) []))))
    ∧ (∀ (o r : Str) (po pr : ParseResult),
      urlparseE o = .ok po → urlparseE r = .ok pr →
      5 ≤ (pathSegments po.path).length →
      ¬ (4 ≤ (pathSegments pr.path).length
          ∧ lowerStr ((pathSegments pr.path).headD []) = toL "en-gb"
          ∧ (pathSegments pr.path).getD 1 [] = toL "lounges") →
      ¬ ((pathSegments pr.path).length = 3
          ∧ lowerStr ((pathSegments pr.path).headD []) = toL "en-gb"
          ∧ (pathSegments pr.path).getD 1 [] = toL "lounges") →
      try_recover_detail_url_from_redirect o r = .ok none)
    ∧ try_recover_detail_url_from_redirect (toL "/en-GB/lounges/usa/atl10/the-club-atl")
        (toL "/en-GB/lounges/united-states-of-america/hartsfield-jackson-atlanta-international")
      = .ok (some (toL "https://my.prioritypass.com/en-GB/lounges/united-states-of-america/hartsfield-jackson-atlanta-international/the-club-atl")) := by
  have segfacts : ∀ (u : Str) (pu : ParseResult), urlparseE u = .ok pu →
      ∀ k, k < (pathSegments pu.path).length →
      (pathSegments pu.path).getD k [] ≠ []
      ∧ '/' ∉ (pathSegments pu.path).getD k []
      ∧ '#' ∉ (pathSegments pu.path).getD k []
      ∧ '?' ∉ (pathSegments pu.path).getD k []
      ∧ (∀ c ∈ (pathSegments pu.path).getD k [], unsafeUrlByte c = false) := by
    intro u pu hu k hk
    have hmem : (pathSegments pu.path).getD k [] ∈ pathSegments pu.path :=
      getD_mem_of_lt _ k [] hk
    rcases pathSegments_piece_facts pu.path _ hmem with ⟨hne, hsl, hsub⟩
    rcases urlparseE_path_facts u pu hu with ⟨hf, hq, hc⟩
    refine ⟨hne, hsl, ?_, ?_, ?_⟩
    · exact fun h => hf (hsub '#' h)
    · exact fun h => hq (hsub '?' h)
    · intro c hcm
      exact mem_cleanUrl_unsafe u c (hc c (hsub c hcm))
  refine ⟨?_, ?_, ?_, by decide⟩
  · intro o r po pr ho hr h5 h4 hengb hlou hs2 hs3 hsS hspS
    rcases segfacts r pr hr 2 (by omega) with ⟨r2ne, r2sl, r2f, r2q, r2t⟩
    rcases segfacts r pr hr 3 (by omega) with ⟨r3ne, r3sl, r3f, r3q, r3t⟩
    rcases segfacts o po ho ((pathSegments po.path).length - 1) (by omega)
      with ⟨sne, ssl, sf, sq, st⟩
    rcases to_my_rebuilt ((pathSegments pr.path).getD 2 []) ((pathSegments pr.path).getD 3 [])
      ((pathSegments po.path).getD ((pathSegments po.path).length - 1) [])
      r2ne r2sl r2f r2q hs2 r2t r3ne r3sl r3f r3q hs3 r3t sne ssl sf sq hsS st hspS
      with ⟨hto, hdet⟩
    rw [try_recover_detail_url_from_redirect, ho, exc_bind_ok, hr, exc_bind_ok]
    rw [if_neg (not_lt.mpr h5)]
    rw [if_pos ⟨h4, hengb, hlou⟩]
    simp only []
    rw [hto, exc_bind_ok, hdet, exc_bind_ok]
    rfl
  · intro o r po pr ho hr h5 h3 hengb hlou hs2 hsA hsS hspS
    rcases segfacts r pr hr 2 (by omega) with ⟨r2ne, r2sl, r2f, r2q, r2t⟩
    rcases segfacts o po ho ((pathSegments po.path).length - 2) (by omega)
      with ⟨ane, asl, af, aq, at2⟩
    rcases segfacts o po ho ((pathSegments po.path).length - 1) (by omega)
      with ⟨sne, ssl, sf, sq, st⟩
    rcases to_my_rebuilt ((pathSegments pr.path).getD 2 [])
      ((pathSegments po.path).getD ((pathSegments po.path).length - 2) [])
      ((pathSegments po.path).getD ((pathSegments po.path).length - 1) [])
      r2ne r2sl r2f r2q hs2 r2t ane asl af aq hsA at2 sne ssl sf sq hsS st hspS
      with ⟨hto, hdet⟩
    rw [try_recover_detail_url_from_redirect, ho, exc_bind_ok, hr, exc_bind_ok]
    rw [if_neg (not_lt.mpr h5)]
    rw [if_neg (show ¬ (4 ≤ (pathSegments pr.path).length
        ∧ lowerStr ((pathSegments pr.path).headD []) = toL "en-gb"
        ∧ (pathSegments pr.path).getD 1 [] = toL "lounges") from by
      rintro ⟨hcon, -, -⟩
      omega)]
    rw [exc_pure_bind]
    rw [if_pos ⟨h3, hengb, hlou⟩]
    simp only []
    rw [hto, exc_bind_ok, hdet, exc_bind_ok]
    rfl
  · intro o r po pr ho hr h5 hc1 hc2
    rw [try_recover_detail_url_from_redirect, ho, exc_bind_ok, hr, exc_bind_ok]
    rw [if_neg (not_lt.mpr h5)]
    rw [if_neg hc1, exc_pure_bind, if_neg hc2]

/-- Witness for `recover_from_redirect_characterization`: the spec's example,
through the airport-page conjunct. -/
theorem recover_from_redirect_characterization_witness :
    try_recover_detail_url_from_redirect (toL "/en-GB/lounges/usa/atl10/the-club-atl")
        (toL "/en-GB/lounges/united-states-of-america/hartsfield-jackson-atlanta-international")
      = .ok (some (toL "https://my.prioritypass.com"
          ++ (toL "/en-GB/lounges/"
            ++ (pathSegments (toL "/en-GB/lounges/united-states-of-america/hartsfield-jackson-atlanta-international")).getD 2 []
            ++ '/' :: (pathSegments (toL "/en-GB/lounges/united-states-of-america/hartsfield-jackson-atlanta-international")).getD 3 []
            ++ '/' :: (pathSegments (toL "/en-GB/lounges/usa/atl10/the-club-atl")).getD
                ((pathSegments (toL "/en-GB/lounges/usa/atl10/the-club-atl")).length - 1) []))) :=
  recover_from_redirect_characterization.1
    (toL "/en-GB/lounges/usa/atl10/the-club-atl")
    (toL "/en-GB/lounges/united-states-of-america/hartsfield-jackson-atlanta-international")
    ⟨[], [], toL "/en-GB/lounges/usa/atl10/the-club-atl", [], [], []⟩
    ⟨[], [], toL "/en-GB/lounges/united-states-of-america/hartsfield-jackson-atlanta-international",
      [], [], []⟩
    (by decide) (by decide) (by decide) (by decide) (by decide) (by decide)
    (by decide) (by decide) (by decide) (by decide)

/-! ## Claim C1: idempotence of the canonicalizer -/

/-- `a` is a trailing piece of `b`. -/
def EndsIn (a b : Str) : Prop := ∃ t, b = t ++ a

theorem endsIn_refl (a : Str) : EndsIn a a := ⟨[], rfl⟩

theorem endsIn_trans {a b c : Str} (h1 : EndsIn a b) (h2 : EndsIn b c) : EndsIn a c := by
  rcases h1 with ⟨t1, rfl⟩
  rcases h2 with ⟨t2, rfl⟩
  exact ⟨t2 ++ t1, by rw [List.append_assoc]⟩

theorem endsIn_dropWhile (p : Char → Bool) : ∀ l : Str, EndsIn (l.dropWhile p) l := by
  intro l
  induction l with
  | nil => exact ⟨[], rfl⟩
  | cons c t ih =>
    rw [List.dropWhile_cons]
    by_cases hc : p c = true
    · rw [if_pos hc]
      rcases ih with ⟨s, hs⟩
      exact ⟨c :: s, by rw [List.cons_append, ← hs]⟩
    · rw [if_neg hc]
      exact ⟨[], rfl⟩

theorem endsIn_drop (n : Nat) (l : Str) : EndsIn (l.drop n) l :=
  ⟨l.take n, (List.take_append_drop n l).symm⟩

theorem splitSchemeAux_endsIn :
    ∀ (s acc a b : Str), splitSchemeAux acc s = some (a, b) → EndsIn b s := by
  intro s
  induction s with
  | nil => intro acc a b h; exact absurd h (by rw [splitSchemeAux]; exact Option.noConfusion)
  | cons x t ih =>
    intro acc a b h
    rw [splitSchemeAux] at h
    by_cases hx : x = ':'
    · rw [if_pos hx] at h
      cases h
      exact ⟨[x], rfl⟩
    · rw [if_neg hx] at h
      by_cases hsc : schemeChar x = true
      · rw [if_pos hsc] at h
        rcases ih (x :: acc) a b h with ⟨s2, hs2⟩
        exact ⟨x :: s2, by rw [List.cons_append, ← hs2]⟩
      · rw [if_neg hsc] at h
        exact absurd h Option.noConfusion

theorem splitScheme_snd_endsIn (s : Str) : EndsIn (splitScheme s).2 s := by
  cases s with
  | nil => exact endsIn_refl []
  | cons x t =>
    rw [splitScheme]
    by_cases hx : x.isAlpha = true
    · rw [if_pos hx]
      cases haux : splitSchemeAux [] (x :: t) with
      | none => exact endsIn_refl _
      | some p => exact splitSchemeAux_endsIn (x :: t) [] p.1 p.2 (by rw [haux])
    · rw [if_neg hx]
      exact endsIn_refl _

theorem endsIn_reverse_headD {a b : Str} (h : EndsIn a b) (hne : a ≠ []) (d : Char) :
    a.reverse.headD d = b.reverse.headD d := by
  rcases h with ⟨t, rfl⟩
  exact (reverse_headD_append t a d hne).symm

theorem mem_pstrip (s : Str) : ∀ c ∈ pstrip s, c ∈ s := by
  intro c hc
  rw [pstrip, List.mem_reverse] at hc
  have h1 := (List.dropWhile_sublist pyIsSpace).subset hc
  rw [List.mem_reverse] at h1
  exact (List.dropWhile_sublist pyIsSpace).subset h1

theorem dropWhile_headD_false {p : Char → Bool} (l : Str) (d : Char)
    (h : l.dropWhile p ≠ []) : p ((l.dropWhile p).headD d) = false := by
  induction l with
  | nil => exact absurd rfl h
  | cons c t ih =>
    rw [List.dropWhile_cons]
    by_cases hc : p c = true
    · rw [List.dropWhile_cons, if_pos hc] at h
      rw [if_pos hc]
      exact ih h
    · rw [if_neg hc]
      rw [List.headD_cons]
      exact Bool.not_eq_true _ ▸ (by simpa using hc)

theorem pstrip_last_not_space (s : Str) (h : pstrip s ≠ []) :
    pyIsSpace ((pstrip s).reverse.headD ' ') = false := by
  rw [pstrip, List.reverse_reverse]
  rw [pstrip] at h
  apply dropWhile_headD_false
  intro hcon
  rw [hcon] at h
  exact h rfl

theorem pstrip_head_not_space (s : Str) (h : pstrip s ≠ []) :
    pyIsSpace ((pstrip s).headD ' ') = false := by
  have hB : EndsIn ((s.dropWhile pyIsSpace).reverse.dropWhile pyIsSpace)
      (s.dropWhile pyIsSpace).reverse := endsIn_dropWhile pyIsSpace _
  rcases hB with ⟨t, ht⟩
  have hA : s.dropWhile pyIsSpace
      = ((s.dropWhile pyIsSpace).reverse.dropWhile pyIsSpace).reverse ++ t.reverse := by
    have := congrArg List.reverse ht
    rw [List.reverse_reverse, List.reverse_append] at this
    exact this
  have hne : ((s.dropWhile pyIsSpace).reverse.dropWhile pyIsSpace).reverse ≠ [] := by
    rw [pstrip] at h
    exact h
  rw [pstrip, ← headD_append_left _ t.reverse ' ' hne, ← hA]
  have hAne : s.dropWhile pyIsSpace ≠ [] := by
    intro hcon
    apply hne
    rw [hcon]
    rfl
  exact dropWhile_headD_false s ' ' hAne

theorem urlsplitE_path_endsIn (u : Str) (r : SplitResult)
    (h : urlsplitE u = .ok r) (hq : '?' ∉ u) (hh : '#' ∉ u) :
    EndsIn r.path (cleanUrl u) := by
  have hqc : '?' ∉ cleanUrl u := fun hm => hq (mem_cleanUrl_subset u '?' hm)
  have hhc : '#' ∉ cleanUrl u := fun hm => hh (mem_cleanUrl_subset u '#' hm)
  rw [urlsplitE] at h
  by_cases hss : strStarts (toL "//") (splitScheme (cleanUrl u)).2 = true
  · rw [if_pos hss] at h
    by_cases hbr : '[' ∈ ((splitScheme (cleanUrl u)).2.drop 2).takeWhile (fun c => !netlocDelim c)
        ∨ ']' ∈ ((splitScheme (cleanUrl u)).2.drop 2).takeWhile (fun c => !netlocDelim c)
    · rw [if_pos hbr] at h
      exact absurd h Except.noConfusion
    · rw [if_neg hbr] at h
      have hr := Except.ok.inj h
      have hu2sub : ∀ c ∈ ((splitScheme (cleanUrl u)).2.drop 2).dropWhile
          (fun c => !netlocDelim c), c ∈ cleanUrl u := by
        intro c hc
        have s1 := (List.dropWhile_sublist (fun c => !netlocDelim c)).subset hc
        have s2 := List.mem_of_mem_drop s1
        exact splitScheme_snd_subset (cleanUrl u) c s2
      have hcut1 : cutFirst '#' (((splitScheme (cleanUrl u)).2.drop 2).dropWhile
          (fun c => !netlocDelim c)) = (((splitScheme (cleanUrl u)).2.drop 2).dropWhile
          (fun c => !netlocDelim c), []) :=
        cutFirst_no_sep _ (fun hm => hhc (hu2sub '#' hm))
      have hcut2 : cutFirst '?' (((splitScheme (cleanUrl u)).2.drop 2).dropWhile
          (fun c => !netlocDelim c)) = (((splitScheme (cleanUrl u)).2.drop 2).dropWhile
          (fun c => !netlocDelim c), []) :=
        cutFirst_no_sep _ (fun hm => hqc (hu2sub '?' hm))
      have hpath : r.path = ((splitScheme (cleanUrl u)).2.drop 2).dropWhile
          (fun c => !netlocDelim c) := by
        rw [← hr]
        simp only [hcut1, hcut2]
      rw [hpath]
      exact endsIn_trans (endsIn_dropWhile _ _)
        (endsIn_trans (endsIn_drop 2 _) (splitScheme_snd_endsIn (cleanUrl u)))
  · rw [if_neg hss] at h
    have hr := Except.ok.inj h
    have hu1sub : ∀ c ∈ (splitScheme (cleanUrl u)).2, c ∈ cleanUrl u :=
      splitScheme_snd_subset (cleanUrl u)
    have hcut1 : cutFirst '#' (splitScheme (cleanUrl u)).2 = ((splitScheme (cleanUrl u)).2, []) :=
      cutFirst_no_sep _ (fun hm => hhc (hu1sub '#' hm))
    have hcut2 : cutFirst '?' (splitScheme (cleanUrl u)).2 = ((splitScheme (cleanUrl u)).2, []) :=
      cutFirst_no_sep _ (fun hm => hqc (hu1sub '?' hm))
    have hpath : r.path = (splitScheme (cleanUrl u)).2 := by
      rw [← hr]
      simp only [hcut1, hcut2]
    rw [hpath]
    exact splitScheme_snd_endsIn (cleanUrl u)

theorem urlparseE_path_endsIn (u : Str) (r : ParseResult)
    (h : urlparseE u = .ok r) (hq : '?' ∉ u) (hh : '#' ∉ u) (hsemi : ';' ∉ u) :
    EndsIn r.path (cleanUrl u) := by
  rw [urlparseE] at h
  cases hsp : urlsplitE u with
  | error e =>
    rw [hsp] at h
    exact absurd h Except.noConfusion
  | ok s =>
    rw [hsp, exc_bind_ok] at h
    rcases urlsplitE_path_facts u s hsp with ⟨-, -, hsub⟩
    rw [if_neg (show ¬ (s.scheme ∈ usesParams ∧ ';' ∈ s.path) from by
      rintro ⟨-, hm⟩
      exact hsemi (mem_cleanUrl_subset u ';' (hsub ';' hm)))] at h
    have hr := Except.ok.inj h
    have hpath : r.path = s.path := by rw [← hr]
    rw [hpath]
    exact urlsplitE_path_endsIn u s hsp hq hh

theorem cleanUrl_endsIn (u : Str) (ht : ∀ c ∈ u, unsafeUrlByte c = false) :
    EndsIn (cleanUrl u) u := by
  have hfil : (u.dropWhile c0ControlOrSpace).filter (fun c => !unsafeUrlByte c)
      = u.dropWhile c0ControlOrSpace := by
    apply List.filter_eq_self.mpr
    intro c hc
    rw [ht c ((List.dropWhile_sublist c0ControlOrSpace).subset hc)]
    rfl
  rw [cleanUrl, hfil]
  exact endsIn_dropWhile c0ControlOrSpace u

theorem ensureLeadingSlash_starts (p : Str) :
    strStarts (toL "/") (ensureLeadingSlash p) = true := by
  rw [ensureLeadingSlash]
  by_cases h : strStarts (toL "/") p = true
  · rw [if_pos h]
    exact h
  · rw [if_neg h]
    rfl

theorem normalizeLoungesPrefix_starts (p : Str) (h : strStarts (toL "/") p = true) :
    strStarts (toL "/") (normalizeLoungesPrefix p) = true := by
  rw [normalizeLoungesPrefix]
  by_cases hl : strStarts (toL "/lounges/") p = true
  · rw [if_pos hl]
    rfl
  · rw [if_neg hl]
    exact h

theorem normalizeLoungesPrefix_not_lounges (p : Str) :
    strStarts (toL "/lounges/") (normalizeLoungesPrefix p) = false := by
  rw [normalizeLoungesPrefix]
  by_cases hl : strStarts (toL "/lounges/") p = true
  · rw [if_pos hl]
    rfl
  · rw [if_neg hl]
    exact Bool.not_eq_true _ ▸ hl

theorem mem_ensureLeadingSlash (p : Str) :
    ∀ c ∈ ensureLeadingSlash p, c = '/' ∨ c ∈ p := by
  intro c hc
  rw [ensureLeadingSlash] at hc
  by_cases h : strStarts (toL "/") p = true
  · rw [if_pos h] at hc
    exact Or.inr hc
  · rw [if_neg h] at hc
    rcases List.mem_cons.mp hc with rfl | hm
    · exact Or.inl rfl
    · exact Or.inr hm

theorem mem_normalizeLoungesPrefix (p : Str) :
    ∀ c ∈ normalizeLoungesPrefix p, c ∈ MY_PP_LANG_PREFIX ∨ c ∈ p := by
  intro c hc
  rw [normalizeLoungesPrefix] at hc
  by_cases h : strStarts (toL "/lounges/") p = true
  · rw [if_pos h] at hc
    exact List.mem_append.mp hc
  · rw [if_neg h] at hc
    exact Or.inr hc

theorem ensureLeadingSlash_reverse_headD (p : Str) (d : Char) :
    (ensureLeadingSlash p).reverse.headD d
      = (if p = [] then '/' else p.reverse.headD d) := by
  rw [ensureLeadingSlash]
  by_cases h : strStarts (toL "/") p = true
  · rw [if_pos h]
    rcases (strStarts_iff (toL "/") p).mp h with ⟨t, rfl⟩
    rw [if_neg (show ¬ (toL "/" ++ t = []) from fun hcon => List.cons_ne_nil '/' t hcon)]
  · rw [if_neg h]
    by_cases hp : p = []
    · subst hp
      rfl
    · rw [if_neg hp]
      rw [show ('/' :: p).reverse = p.reverse ++ ['/'] from List.reverse_cons '/' p]
      rw [headD_append_left _ _ d (by
        intro hcon
        exact hp (by simpa using congrArg List.reverse hcon))]

theorem normalizeLoungesPrefix_reverse_headD (p : Str) (d : Char) (h : p ≠ []) :
    (normalizeLoungesPrefix p).reverse.headD d = p.reverse.headD d := by
  rw [normalizeLoungesPrefix]
  by_cases hl : strStarts (toL "/lounges/") p = true
  · rw [if_pos hl]
    exact reverse_headD_append MY_PP_LANG_PREFIX p d h
  · rw [if_neg hl]

theorem ensureLeadingSlash_ne_nil (p : Str) : ensureLeadingSlash p ≠ [] := by
  intro hcon
  have := ensureLeadingSlash_starts p
  rw [hcon] at this
  exact Bool.false_ne_true this

theorem to_my_canonical_output (p2 : Str)
    (hstart : strStarts (toL "/") p2 = true)
    (hnl : strStarts (toL "/lounges/") p2 = false)
    (ht : ∀ c ∈ p2, unsafeUrlByte c = false)
    (hf : '#' ∉ p2) (hqq : '?' ∉ p2) (hsm : ';' ∉ p2)
    (hlast : pyIsSpace (p2.reverse.headD ' ') = false) :
    to_my_prioritypass_url (toL "https://my.prioritypass.com" ++ p2)
      = .ok (toL "https://my.prioritypass.com" ++ p2) := by
  have hp2ne : p2 ≠ [] := by
    intro hcon
    rw [hcon] at hstart
    exact Bool.false_ne_true hstart
  have hstrip : pstrip (toL "https://my.prioritypass.com" ++ p2)
      = toL "https://my.prioritypass.com" ++ p2 := by
    apply pstrip_eq_self
    · right
      rfl
    · right
      rw [reverse_headD_append _ p2 ' ' hp2ne]
      exact hlast
  have hparse := urlparseE_myPP p2 ht hstart hf hqq hsm
  rw [to_my_prioritypass_url]
  rw [if_neg (show ¬ pstrip (toL "https://my.prioritypass.com" ++ p2) = [] from by
    rw [hstrip]
    intro hcon
    exact hp2ne (List.append_eq_nil.mp hcon).2)]
  rw [hstrip, hparse, exc_bind_ok]
  simp only
  rw [if_pos (show (⟨toL "https", toL "my.prioritypass.com", p2, [], [],
      []⟩ : ParseResult).netloc ≠ [] from by
    show toL "my.prioritypass.com" ≠ []
    decide)]
  rw [show ensureLeadingSlash p2 = p2 from by rw [ensureLeadingSlash, if_pos hstart]]
  rw [show normalizeLoungesPrefix p2 = p2 from by
    rw [normalizeLoungesPrefix, if_neg (by rw [hnl]; exact Bool.false_ne_true)]]
  rw [urlunparseStr_canonical (toL "https") MY_PP_HOST p2 (by decide) (by decide) hstart]
  rfl

theorem to_my_eval (x : Str) (r : ParseResult) (h0 : ¬ pstrip x = [])
    (hpe : urlparseE (pstrip x) = .ok r) :
    to_my_prioritypass_url x = .ok (urlunparseStr (toL "https") MY_PP_HOST
      (normalizeLoungesPrefix (ensureLeadingSlash
        (if r.netloc ≠ [] then r.path else pstrip x))) [] [] []) := by
  rw [to_my_prioritypass_url, if_neg h0, hpe, exc_bind_ok]

/-- C1. The canonicalizer `to_my_prioritypass_url` is NOT idempotent on every
string (see `canonicalize_not_idempotent_cex`), but it is idempotent on every
input free of the reserved characters `?`, `#`, `;` and of tab/CR/LF — a class
containing all five input shapes the claim enumerates (absolute prefixed URL,
absolute unprefixed URL, prefixed path, unprefixed path, bare slug). -/
theorem canonicalize_idempotent_plain (x : Str)
    (hq : '?' ∉ x) (hf : '#' ∉ x) (hs : ';' ∉ x)
    (htb : '\t' ∉ x) (hcr : '\r' ∉ x) (hlf : '\n' ∉ x) :
    (to_my_prioritypass_url x >>= to_my_prioritypass_url)
      = to_my_prioritypass_url x := by
  have hxunsafeX : ∀ c ∈ x, unsafeUrlByte c = false := by
    intro c hc
    rw [unsafeUrlByte]
    have h1 : (c == '\t') = false := beq_eq_false_iff_ne.mpr (fun hcon => htb (hcon ▸ hc))
    have h2 : (c == '\r') = false := beq_eq_false_iff_ne.mpr (fun hcon => hcr (hcon ▸ hc))
    have h3 : (c == '\n') = false := beq_eq_false_iff_ne.mpr (fun hcon => hlf (hcon ▸ hc))
    rw [h1, h2, h3]
    rfl
  by_cases h0 : pstrip x = []
  · have h1 : to_my_prioritypass_url x = .ok [] := by
      rw [to_my_prioritypass_url, if_pos h0, h0]
    rw [h1, exc_bind_ok]
    rfl
  · cases hpe : urlparseE (pstrip x) with
    | error e =>
      have h1 : to_my_prioritypass_url x = .error e := by
        rw [to_my_prioritypass_url, if_neg h0, hpe, exc_bind_error]
      rw [h1, exc_bind_error]
    | ok r =>
      have hmempstrip : ∀ c ∈ pstrip x, c ∈ x := mem_pstrip x
      have hqp : '?' ∉ pstrip x := fun hcon => hq (hmempstrip _ hcon)
      have hfp : '#' ∉ pstrip x := fun hcon => hf (hmempstrip _ hcon)
      have hsp2 : ';' ∉ pstrip x := fun hcon => hs (hmempstrip _ hcon)
      have hxunsafe : ∀ c ∈ pstrip x, unsafeUrlByte c = false :=
        fun c hc => hxunsafeX c (hmempstrip c hc)
      have hpf := urlparseE_path_facts (pstrip x) r hpe
      have hmem0 : ∀ c ∈ (if r.netloc ≠ [] then r.path else pstrip x), c ∈ x := by
        by_cases hnet : r.netloc ≠ []
        · rw [if_pos hnet]
          intro c hc
          exact hmempstrip c (mem_cleanUrl_subset (pstrip x) c (hpf.2.2 c hc))
        · rw [if_neg hnet]
          exact hmempstrip
      have hlast0 : (if r.netloc ≠ [] then r.path else pstrip x) = [] ∨
          pyIsSpace ((if r.netloc ≠ [] then r.path
            else pstrip x).reverse.headD ' ') = false := by
        by_cases hnet : r.netloc ≠ []
        · rw [if_pos hnet]
          by_cases hrp : r.path = []
          · exact Or.inl hrp
          · right
            have he := endsIn_trans (urlparseE_path_endsIn (pstrip x) r hpe hqp hfp hsp2)
              (cleanUrl_endsIn (pstrip x) hxunsafe)
            rw [endsIn_reverse_headD he hrp ' ']
            exact pstrip_last_not_space x h0
        · rw [if_neg hnet]
          exact Or.inr (pstrip_last_not_space x h0)
      rw [to_my_eval x r h0 hpe, exc_bind_ok]
      revert hmem0 hlast0
      generalize (if r.netloc ≠ [] then r.path else pstrip x) = P0
      intro hmem0 hlast0
      have hPstart := normalizeLoungesPrefix_starts (ensureLeadingSlash P0)
        (ensureLeadingSlash_starts P0)
      have hPnl := normalizeLoungesPrefix_not_lounges (ensureLeadingSlash P0)
      have hPmem : ∀ c ∈ normalizeLoungesPrefix (ensureLeadingSlash P0),
          c ∈ MY_PP_LANG_PREFIX ∨ c = '/' ∨ c ∈ P0 := by
        intro c hc
        rcases mem_normalizeLoungesPrefix (ensureLeadingSlash P0) c hc with h1 | h1
        · exact Or.inl h1
        · rcases mem_ensureLeadingSlash P0 c h1 with h2 | h2
          · exact Or.inr (Or.inl h2)
          · exact Or.inr (Or.inr h2)
      have hPclean : ∀ c ∈ normalizeLoungesPrefix (ensureLeadingSlash P0),
          unsafeUrlByte c = false := by
        intro c hc
        rcases hPmem c hc with h1 | h1 | h1
        · exact (show ∀ c ∈ MY_PP_LANG_PREFIX, unsafeUrlByte c = false by decide) c h1
        · rw [h1]
          rfl
        · exact hxunsafeX c (hmem0 c h1)
      have hPf : '#' ∉ normalizeLoungesPrefix (ensureLeadingSlash P0) := by
        intro hc
        rcases hPmem '#' hc with h1 | h1 | h1
        · exact absurd h1 (by decide)
        · exact absurd h1 (by decide)
        · exact hf (hmem0 '#' h1)
      have hPq : '?' ∉ normalizeLoungesPrefix (ensureLeadingSlash P0) := by
        intro hc
        rcases hPmem '?' hc with h1 | h1 | h1
        · exact absurd h1 (by decide)
        · exact absurd h1 (by decide)
        · exact hq (hmem0 '?' h1)
      have hPs : ';' ∉ normalizeLoungesPrefix (ensureLeadingSlash P0) := by
        intro hc
        rcases hPmem ';' hc with h1 | h1 | h1
        · exact absurd h1 (by decide)
        · exact absurd h1 (by decide)
        · exact hs (hmem0 ';' h1)
      have hPlast : pyIsSpace ((normalizeLoungesPrefix
          (ensureLeadingSlash P0)).reverse.headD ' ') = false := by
        rw [normalizeLoungesPrefix_reverse_headD (ensureLeadingSlash P0) ' '
          (ensureLeadingSlash_ne_nil P0)]
        rw [ensureLeadingSlash_reverse_headD P0 ' ']
        by_cases hP0e : P0 = []
        · rw [if_pos hP0e]
          decide
        · rw [if_neg hP0e]
          rcases hlast0 with h1 | h1
          · exact absurd h1 hP0e
          · exact h1
      have hU : urlunparseStr (toL "https") MY_PP_HOST
          (normalizeLoungesPrefix (ensureLeadingSlash P0)) [] [] []
            = toL "https://my.prioritypass.com"
              ++ normalizeLoungesPrefix (ensureLeadingSlash P0) := by
        rw [urlunparseStr_canonical _ _ _ (by decide) (by decide) hPstart]
        rfl
      rw [hU]
      exact to_my_canonical_output _ hPstart hPnl hPclean hPf hPq hPs hPlast

/-- C1 counterexample: on the input `lounges/a?b` the canonicalizer keeps the
query in its output path on the first pass but drops it on the second
(reparsing moves `?b` into the query component, which is discarded), so
`canonicalize (canonicalize x)` differs from `canonicalize x`. -/
theorem canonicalize_not_idempotent_cex :
    to_my_prioritypass_url (toL "lounges/a?b")
        = .ok (toL "https://my.prioritypass.com/en-GB/lounges/a?b")
      ∧ (to_my_prioritypass_url (toL "lounges/a?b") >>= to_my_prioritypass_url)
        = .ok (toL "https://my.prioritypass.com/en-GB/lounges/a")
      ∧ (toL "https://my.prioritypass.com/en-GB/lounges/a?b"
        ≠ toL "https://my.prioritypass.com/en-GB/lounges/a") := by
  refine ⟨by decide, by decide, by decide⟩

/-- C1 witness: idempotence at concrete representatives of the five claimed
input shapes — absolute prefixed URL, absolute unprefixed URL, prefixed path,
unprefixed path, bare slug. -/
theorem canonicalize_idempotent_plain_witness :
    ((to_my_prioritypass_url
        (toL "https://www.prioritypass.com/en-GB/lounges/usa/atl-atlanta/club-a")
        >>= to_my_prioritypass_url)
      = to_my_prioritypass_url
        (toL "https://www.prioritypass.com/en-GB/lounges/usa/atl-atlanta/club-a"))
    ∧ ((to_my_prioritypass_url
        (toL "https://www.prioritypass.com/lounges/usa/atl-atlanta/club-a")
        >>= to_my_prioritypass_url)
      = to_my_prioritypass_url
        (toL "https://www.prioritypass.com/lounges/usa/atl-atlanta/club-a"))
    ∧ ((to_my_prioritypass_url (toL "/en-GB/lounges/usa/atl-atlanta/club-a")
        >>= to_my_prioritypass_url)
      = to_my_prioritypass_url (toL "/en-GB/lounges/usa/atl-atlanta/club-a"))
    ∧ ((to_my_prioritypass_url (toL "/lounges/usa/atl-atlanta/club-a")
        >>= to_my_prioritypass_url)
      = to_my_prioritypass_url (toL "/lounges/usa/atl-atlanta/club-a"))
    ∧ ((to_my_prioritypass_url (toL "lounges/usa/atl-atlanta/club-a")
        >>= to_my_prioritypass_url)
      = to_my_prioritypass_url (toL "lounges/usa/atl-atlanta/club-a")) :=
  ⟨canonicalize_idempotent_plain _ (by decide) (by decide) (by decide)
      (by decide) (by decide) (by decide),
    canonicalize_idempotent_plain _ (by decide) (by decide) (by decide)
      (by decide) (by decide) (by decide),
    canonicalize_idempotent_plain _ (by decide) (by decide) (by decide)
      (by decide) (by decide) (by decide),
    canonicalize_idempotent_plain _ (by decide) (by decide) (by decide)
      (by decide) (by decide) (by decide),
    canonicalize_idempotent_plain _ (by decide) (by decide) (by decide)
      (by decide) (by decide) (by decide)⟩
